import Mathlib

/-!
Smart door lock (`main.c`): shallow embedding and verification.

The program has two actors that share a handful of globals:

* `PMOD_ENC_Task`, the 1 ms sampler registered on Timer 0A, and
* the polling loop of `main`, which redraws the menu, calls
  `Process_Main_Menu_Selection`, refreshes the live digit and sleeps.

Globals are gathered in one record that is threaded through every function.
Calls into the board drivers (LCD, RGB LED, SysTick delay) are recorded, in
program order, in the `trace` field.  The encoder driver (`PMOD_ENC.h`) is not
part of the sources, so its two pure decoders are taken as a parameter.

Integer conventions: `uint8_t` objects are `Nat` reduced modulo `2^8` where
they are stored; `int` objects are `Int` (no signed overflow is modelled).
A store outside `entered_code[0..3]` has no defined behaviour in C and is
modelled as `none`.

Granularity: a run of the sampler and each of the four statements of the loop
body (redraw check, handler call, digit refresh, delay) are atomic steps; the
timer may fire between any two of them.
-/

namespace SmartLock

/-! ## Driver interface -/

/-- The two decoders of the encoder driver that the sampler uses. -/
structure Driver where
  /-- Models `PMOD_ENC_Button_Read(state)`, used only as a truth value. -/
  PMOD_ENC_Button_Read : Nat → Bool
  /-- Models `PMOD_ENC_Get_Rotation(state, last_state)`. -/
  PMOD_ENC_Get_Rotation : Nat → Nat → Int

/-- Colours passed to `RGB_LED_Output` (`RGB_LED_OFF`, `RGB_LED_RED`, `RGB_LED_GREEN`). -/
inductive Color
  | RGB_LED_OFF
  | RGB_LED_RED
  | RGB_LED_GREEN
deriving DecidableEq, Repr

/-- One call into the display, indicator or delay drivers. -/
inductive Out
  | EduBase_LCD_Clear_Display
  | EduBase_LCD_Set_Cursor (col row : Nat)
  | EduBase_LCD_Send_Data (data : Int)
  | EduBase_LCD_Display_String (text : String)
  | EduBase_LCD_Display_Heart
  | RGB_LED_Output (c : Color)
  | SysTick_Delay1ms (ms : Nat)
deriving DecidableEq, Repr

/-! ## Globals -/

/-- The macro `MENU_MAX_COUNT`, defined as 0 (line 32). -/
def MENU_MAX_COUNT : Int := 0

/-- The macro `PASSWORD_MAX_COUNT`, defined as 9 (line 33). -/
def PASSWORD_MAX_COUNT : Int := 9

/-- The reference code `correct_code[4]`, initialised to 2, 3, 4, 5 (line 44). -/
def correct_code : Fin 4 → Nat := ![2, 3, 4, 5]

/-- The file-scope variables of `main.c`, plus the trace of driver calls. -/
structure Globals where
  state : Nat
  last_state : Nat
  pmod_enc_btn_pressed : Nat
  prev_main_menu_counter : Int
  main_menu_counter : Int
  password_counter : Int
  position : Nat
  entered_code : Fin 4 → Nat
  trace : List Out

/-- The values given by the static initialisers (lines 35-43). -/
def Globals.static_init : Globals where
  state := 0
  last_state := 0
  pmod_enc_btn_pressed := 0
  prev_main_menu_counter := 0xFF
  main_menu_counter := 0
  password_counter := 0
  position := 0
  entered_code := ![0, 0, 0, 0]
  trace := []

/-- Conversion of an `int` to `uint8_t`: reduction modulo `2^8`. -/
def to_uint8 (v : Int) : Nat := (v % 256).toNat

/-- The character code of `'0'`, as an `int`. -/
def char0 : Int := Int.ofNat '0'.toNat

/-! ## The sampler: `PMOD_ENC_Task` (lines 165-208) -/

/-- One run of the sampler, `hw` being what `PMOD_ENC_Get_State()` returns. -/
def PMOD_ENC_Task (drv : Driver) (hw : Nat) (s : Globals) : Globals :=
  -- state = PMOD_ENC_Get_State();
  let st := hw % 256
  -- if (Button_Read(state) && !Button_Read(last_state)) pmod_enc_btn_pressed = 1;
  let btn :=
    if drv.PMOD_ENC_Button_Read st && !drv.PMOD_ENC_Button_Read s.last_state then 1
    else s.pmod_enc_btn_pressed
  -- clamp of main_menu_counter
  let mmc :=
    if s.main_menu_counter < 0 then 0
    else if s.main_menu_counter > MENU_MAX_COUNT then MENU_MAX_COUNT
    else s.main_menu_counter
  -- password_counter = password_counter + PMOD_ENC_Get_Rotation(state, last_state);
  let pc0 := s.password_counter + drv.PMOD_ENC_Get_Rotation st s.last_state
  let pc :=
    if pc0 < 0 then 0
    else if pc0 > PASSWORD_MAX_COUNT then PASSWORD_MAX_COUNT
    else pc0
  -- last_state = state;
  { s with
    state := st
    pmod_enc_btn_pressed := btn
    main_menu_counter := mmc
    password_counter := pc
    last_state := st }

/-! ## `Display_Main_Menu` (lines 210-230) -/

/-- Draws the entry prompt for menu item 0; any other item draws nothing. -/
def Display_Main_Menu (main_menu_state : Int) (s : Globals) : Globals :=
  if main_menu_state = 0 then
    { s with
      position := 1
      trace := s.trace ++
        [ Out.EduBase_LCD_Set_Cursor 1 0,
          Out.EduBase_LCD_Display_String "ENTER PASSWORD",
          Out.EduBase_LCD_Set_Cursor 0 1,
          Out.EduBase_LCD_Send_Data 3,
          Out.EduBase_LCD_Set_Cursor 1 1,
          Out.EduBase_LCD_Set_Cursor 1 1,
          Out.EduBase_LCD_Send_Data (char0 + s.password_counter) ] }
  else s

/-! ## `Process_Main_Menu_Selection` (lines 232-301) -/

/-- The store `entered_code[idx] = v`; `none` when `idx` is outside `0..3`. -/
def store_entered_code (code : Fin 4 → Nat) (idx : Int) (v : Nat) : Option (Fin 4 → Nat) :=
  if h : 0 ≤ idx ∧ idx < 4 then
    some (Function.update code ⟨idx.toNat, by omega⟩ v)
  else none

/-- Lines 242-249: the commit of the current digit, guarded by `position <= 4`. -/
def commit_digit (s : Globals) : Option Globals :=
  if s.position ≤ 4 then
    match store_entered_code s.entered_code ((s.position : Int) - 1)
        (to_uint8 s.password_counter) with
    | none => none
    | some code =>
      some { s with
        entered_code := code
        trace := s.trace ++
          [ Out.EduBase_LCD_Set_Cursor s.position 1,
            Out.EduBase_LCD_Send_Data (char0 + s.password_counter) ]
        position := (s.position + 1) % 256 }
  else some s

/-- Lines 254-261: the comparison loop; returns the flag `match`. -/
def check_password (code : Fin 4 → Nat) : Nat :=
  (List.finRange 4).foldl (fun m i => if code i ≠ correct_code i then 0 else m) 1

/-- Lines 253-295: the body of `if (position == 5)`. -/
def evaluate_entry (s : Globals) : Globals :=
  let verdict :=
    if check_password s.entered_code ≠ 0 then
      [ Out.RGB_LED_Output Color.RGB_LED_GREEN,
        Out.EduBase_LCD_Display_String "UNLOCKED",
        Out.EduBase_LCD_Set_Cursor 10 1,
        Out.EduBase_LCD_Display_Heart,
        Out.EduBase_LCD_Set_Cursor 11 1,
        Out.EduBase_LCD_Display_Heart,
        Out.EduBase_LCD_Set_Cursor 12 1,
        Out.EduBase_LCD_Display_Heart ]
    else
      [ Out.RGB_LED_Output Color.RGB_LED_RED,
        Out.EduBase_LCD_Display_String "LOCKED" ]
  { s with
    position := 1
    password_counter := 0
    trace := s.trace ++ [Out.EduBase_LCD_Set_Cursor 1 1] ++ verdict ++
      [ Out.SysTick_Delay1ms 3000,
        Out.RGB_LED_Output Color.RGB_LED_OFF,
        Out.EduBase_LCD_Clear_Display,
        Out.EduBase_LCD_Set_Cursor 1 0,
        Out.EduBase_LCD_Display_String "ENTER PASSWORD",
        Out.EduBase_LCD_Set_Cursor 0 1,
        Out.EduBase_LCD_Send_Data 3,
        Out.EduBase_LCD_Set_Cursor 1 1,
        Out.EduBase_LCD_Send_Data (char0 + 0) ] }

/-- The button handler polled by the main loop. -/
def Process_Main_Menu_Selection (s : Globals) : Option Globals :=
  if s.pmod_enc_btn_pressed = 1 then
    let s1 := { s with pmod_enc_btn_pressed := 0 }
    if s1.main_menu_counter = 0 then
      match commit_digit s1 with
      | none => none
      | some s2 => if s2.position = 5 then some (evaluate_entry s2) else some s2
    else some s1
  else some s

/-! ## The polling loop of `main` (lines 105-130) -/

/-- Lines 113-118: redraw the menu when the selection differs from the drawn one. -/
def main_redraw (s : Globals) : Globals :=
  if s.prev_main_menu_counter ≠ s.main_menu_counter then
    let s1 := { s with trace := s.trace ++ [Out.EduBase_LCD_Clear_Display] }
    let s2 := Display_Main_Menu s1.main_menu_counter s1
    { s2 with prev_main_menu_counter := s2.main_menu_counter }
  else s

/-- Lines 123-128: show the live digit at the cursor. -/
def main_refresh (s : Globals) : Globals :=
  if s.main_menu_counter = 0 ∧ s.position ≤ 4 then
    { s with
      trace := s.trace ++
        [ Out.EduBase_LCD_Set_Cursor s.position 1,
          Out.EduBase_LCD_Send_Data (char0 + s.password_counter) ] }
  else s

/-- Line 130: `SysTick_Delay1ms(100)`. -/
def main_sleep (s : Globals) : Globals :=
  { s with trace := s.trace ++ [Out.SysTick_Delay1ms 100] }

/-- Where the main thread stands: before line 105, or at one of the four
statements of the loop body. -/
inductive Phase
  | startup
  | redraw
  | select
  | refresh
  | sleep
deriving DecidableEq, Repr

/-- The whole program: the globals and the position of the main thread. -/
structure Machine where
  g : Globals
  pc : Phase

/-- The program after static initialisation, the timer already armed. -/
def Machine.boot : Machine := ⟨Globals.static_init, Phase.startup⟩

/-- What can happen next: the timer fires, or the main thread runs its next
statement.  `hw` is the encoder sample the hardware would return. -/
inductive Event
  | tick (hw : Nat)
  | main (hw : Nat)
deriving DecidableEq, Repr

/-- The next statement of the main thread. -/
def main_step (hw : Nat) (m : Machine) : Option Machine :=
  match m.pc with
  | Phase.startup => some ⟨{ m.g with last_state := hw % 256 }, Phase.redraw⟩
  | Phase.redraw => some ⟨main_redraw m.g, Phase.select⟩
  | Phase.select =>
    match Process_Main_Menu_Selection m.g with
    | none => none
    | some g => some ⟨g, Phase.refresh⟩
  | Phase.refresh => some ⟨main_refresh m.g, Phase.sleep⟩
  | Phase.sleep => some ⟨main_sleep m.g, Phase.redraw⟩

/-- One event of the program. -/
def step (drv : Driver) (e : Event) (m : Machine) : Option Machine :=
  match e with
  | Event.tick hw => some ⟨PMOD_ENC_Task drv hw m.g, m.pc⟩
  | Event.main hw => main_step hw m

/-- A finite run of the program. -/
def run (drv : Driver) : List Event → Machine → Option Machine
  | [], m => some m
  | e :: es, m =>
    match step drv e m with
    | none => none
    | some m1 => run drv es m1

/-- States the program can be in after some run from boot. -/
def Reachable (drv : Driver) (m : Machine) : Prop :=
  ∃ es : List Event, run drv es Machine.boot = some m

/-! ## Entering digits -/

/-- The globals as the handler finds them when the sampler has latched a press
while the digit counter reads `d`. -/
def latched (d : Int) (s : Globals) : Globals :=
  { s with pmod_enc_btn_pressed := 1, password_counter := d }

/-- A consumed button edge with digit value `d`. -/
def press (d : Int) (s : Globals) : Option Globals :=
  Process_Main_Menu_Selection (latched d s)

/-- Consecutive consumed button edges. -/
def presses : List Int → Globals → Option Globals
  | [], s => some s
  | d :: ds, s =>
    match press d s with
    | none => none
    | some s1 => presses ds s1

/-- A sample driver: bit 0 of the sample is the button, bits 1-2 encode the
rotation (`01` clockwise, `10` counter-clockwise). -/
def demo_driver : Driver where
  PMOD_ENC_Button_Read := fun st => st % 2 == 1
  PMOD_ENC_Get_Rotation := fun st _ =>
    if st / 2 % 4 = 1 then 1 else if st / 2 % 4 = 2 then -1 else 0

/-- Globals at the start of an attempt: cursor on the first slot. -/
def entry_state : Globals := { Globals.static_init with position := 1 }

/-! ## Observations on runs -/

/-- Number of verdicts shown in a trace: calls of `RGB_LED_Output` with red or green. -/
def verdicts (t : List Out) : Nat :=
  t.countP (fun o =>
    decide (o = Out.RGB_LED_Output Color.RGB_LED_RED) ||
    decide (o = Out.RGB_LED_Output Color.RGB_LED_GREEN))

/-- Whether a call of the handler did anything visible: moved the cursor,
wrote to the buffer, or called a driver. -/
def acted (s s1 : Globals) : Bool :=
  decide (s1.position ≠ s.position) ||
  decide (s1.entered_code ≠ s.entered_code) ||
  decide (s1.trace ≠ s.trace)

/-- Sampler ticks interleaved with calls of the handler. -/
inductive Poll
  | tick (hw : Nat)
  | handler
deriving DecidableEq, Repr

/-- Number of handler calls in a schedule that acted.  A call that stores out
of bounds counts as an action and ends the run. -/
def action_count (drv : Driver) : List Poll → Globals → Nat
  | [], _ => 0
  | Poll.tick hw :: ps, s => action_count drv ps (PMOD_ENC_Task drv hw s)
  | Poll.handler :: ps, s =>
    match Process_Main_Menu_Selection s with
    | none => 1
    | some s1 => (if acted s s1 then 1 else 0) + action_count drv ps s1

/-- The machine states a run passes through, the first one included. -/
def visited (drv : Driver) : List Event → Machine → List Machine
  | [], m => [m]
  | e :: es, m =>
    match step drv e m with
    | none => [m]
    | some m1 => m :: visited drv es m1

/-- Number of executions of lines 113-118 in a run that called the display. -/
def redraw_count (drv : Driver) : List Event → Machine → Nat
  | [], _ => 0
  | e :: es, m =>
    match step drv e m with
    | none => 0
    | some m1 =>
      (if m.pc = Phase.redraw ∧ m1.g.trace ≠ m.g.trace then 1 else 0)
        + redraw_count drv es m1

/-- Number of statements of the main thread in a list of events. -/
def main_steps : List Event → Nat
  | [] => 0
  | Event.tick _ :: es => main_steps es
  | Event.main _ :: es => main_steps es + 1

/-- The invariant of the program: the menu counter is 0, the digit counter is
a digit, the cursor is at most 4, and it is 0 only before the first redraw,
which is then still due. -/
def Inv (m : Machine) : Prop :=
  m.g.main_menu_counter = 0 ∧
  0 ≤ m.g.password_counter ∧ m.g.password_counter ≤ 9 ∧
  m.g.position ≤ 4 ∧
  (m.g.position = 0 →
    m.g.prev_main_menu_counter ≠ m.g.main_menu_counter ∧
    (m.pc = Phase.startup ∨ m.pc = Phase.redraw))

/-- A short run used as a concrete reachable state: start-up, first redraw,
then a tick that sees the button pressed and a clockwise step. -/
def sample_run : List Event :=
  [Event.main 0, Event.main 0, Event.tick 3]

/-- The state `sample_run` ends in: the prompt is drawn, the cursor is on slot 1,
an edge is latched with the digit counter at 1, and the handler is due. -/
def sample_machine : Machine :=
  ⟨PMOD_ENC_Task demo_driver 3 (main_redraw Globals.static_init), Phase.select⟩

/-- A schedule in which the button is held over four ticks and the handler
polls four times. -/
def held_schedule : List Poll :=
  [Poll.handler, Poll.tick 1, Poll.tick 1, Poll.handler, Poll.tick 1, Poll.handler,
    Poll.tick 1, Poll.handler]

/-- Two full iterations of the main loop after start-up, with ticks in between. -/
def two_iterations : List Event :=
  [Event.main 0, Event.tick 0, Event.main 0, Event.main 0, Event.tick 3, Event.main 0,
    Event.main 0, Event.main 0, Event.main 0, Event.tick 1, Event.main 0, Event.main 0]

/-- Whether a call of the handler reaches line 251 with the cursor at 5, that
is, whether it runs the evaluation of lines 253-295: an edge is latched, the
menu item is 0, and the cursor is 5 after the commit block. -/
def completes_attempt (s : Globals) : Bool :=
  s.pmod_enc_btn_pressed == 1 && s.main_menu_counter == 0 &&
    (match commit_digit { s with pmod_enc_btn_pressed := 0 } with
     | some c => c.position == 5
     | none => false)

/-- The indicator and delay calls of a trace, in order. -/
def indicator_calls (t : List Out) : List Out :=
  t.filter (fun o =>
    match o with
    | Out.RGB_LED_Output _ => true
    | Out.SysTick_Delay1ms _ => true
    | _ => false)

/-- Consecutive runs of the sampler, one per sample. -/
def ticks (drv : Driver) : List Nat → Globals → Globals
  | [], s => s
  | hw :: hws, s => ticks drv hws (PMOD_ENC_Task drv hw s)

/-- Number of samples in a sequence that read pressed right after a sample
(or the given previous sample) that read not pressed. -/
def rising_edges (drv : Driver) : List Nat → Nat → Nat
  | [], _ => 0
  | hw :: hws, last =>
    (if drv.PMOD_ENC_Button_Read (hw % 256) && !drv.PMOD_ENC_Button_Read last then 1 else 0)
      + rising_edges drv hws (hw % 256)

/-- The handler is due with the edge latched, the cursor on slot 4, the first
three slots holding 2,3,4 and the digit counter at 5. -/
def fourth_digit_state : Globals :=
  latched 5 { entry_state with position := 4, entered_code := ![2, 3, 4, 0] }

/-- An edge is latched with the cursor at 6, beyond the completion value. -/
def beyond_state : Globals :=
  latched 3 { entry_state with position := 6 }

/-- Samples of a double click: released, pressed, released, pressed. -/
def double_click : List Nat := [0, 1, 0, 1]

/-- The same as `fourth_digit_state` with the digit counter at 6, so that the
fourth digit is wrong. -/
def wrong_fourth_digit_state : Globals :=
  latched 6 { entry_state with position := 4, entered_code := ![2, 3, 4, 0] }

theorem store_entered_code_in_range (code : Fin 4 → Nat) (p : Nat) (v : Nat)
    (h1 : 1 ≤ p) (h4 : p ≤ 4) :
    store_entered_code code ((p : Int) - 1) v
      = some (Function.update code ⟨p - 1, by omega⟩ v) := by
  unfold store_entered_code
  have h : 0 ≤ (p : Int) - 1 ∧ (p : Int) - 1 < 4 := by omega
  rw [dif_pos h]
  have e : ((p : Int) - 1).toNat = p - 1 := by omega
  simp only [e]

theorem store_entered_code_zero (code : Fin 4 → Nat) (v : Nat) :
    store_entered_code code (((0 : Nat) : Int) - 1) v = none := by
  unfold store_entered_code
  rw [dif_neg]
  omega

theorem check_password_ne_zero_iff (code : Fin 4 → Nat) :
    check_password code ≠ 0 ↔
      code 0 = 2 ∧ code 1 = 3 ∧ code 2 = 4 ∧ code 3 = 5 := by
  have hr : List.finRange 4 = [0, 1, 2, 3] := by decide
  unfold check_password
  rw [hr]
  simp only [List.foldl, correct_code]
  by_cases h0 : code 0 = 2 <;> by_cases h1 : code 1 = 3 <;>
    by_cases h2 : code 2 = 4 <;> by_cases h3 : code 3 = 5 <;>
    simp [h0, h1, h2, h3]

theorem commit_digit_in_range (s : Globals) (h1 : 1 ≤ s.position) (h4 : s.position ≤ 4) :
    commit_digit s = some
      { s with
        entered_code := Function.update s.entered_code ⟨s.position - 1, by omega⟩
          (to_uint8 s.password_counter)
        trace := s.trace ++
          [ Out.EduBase_LCD_Set_Cursor s.position 1,
            Out.EduBase_LCD_Send_Data (char0 + s.password_counter) ]
        position := s.position + 1 } := by
  have hmod : (s.position + 1) % 256 = s.position + 1 := by omega
  simp only [commit_digit, h4, if_true, store_entered_code_in_range _ _ _ h1 h4, hmod]

theorem process_commit (s : Globals) (hb : s.pmod_enc_btn_pressed = 1)
    (hm : s.main_menu_counter = 0) (h1 : 1 ≤ s.position) (h3 : s.position ≤ 3) :
    Process_Main_Menu_Selection s = some
      { s with
        pmod_enc_btn_pressed := 0
        entered_code := Function.update s.entered_code ⟨s.position - 1, by omega⟩
          (to_uint8 s.password_counter)
        trace := s.trace ++
          [ Out.EduBase_LCD_Set_Cursor s.position 1,
            Out.EduBase_LCD_Send_Data (char0 + s.password_counter) ]
        position := s.position + 1 } := by
  have h4 : s.position ≤ 4 := by omega
  have hmod : (s.position + 1) % 256 = s.position + 1 := by omega
  have h5 : ¬ s.position + 1 = 5 := by omega
  simp only [Process_Main_Menu_Selection, commit_digit, hb, hm, if_true, h4,
    store_entered_code_in_range _ _ _ h1 h4, hmod, h5, if_false]

theorem process_complete (s : Globals) (hb : s.pmod_enc_btn_pressed = 1)
    (hm : s.main_menu_counter = 0) (h4 : s.position = 4) :
    Process_Main_Menu_Selection s = some (evaluate_entry
      { s with
        pmod_enc_btn_pressed := 0
        entered_code := Function.update s.entered_code 3 (to_uint8 s.password_counter)
        trace := s.trace ++
          [ Out.EduBase_LCD_Set_Cursor 4 1,
            Out.EduBase_LCD_Send_Data (char0 + s.password_counter) ]
        position := 5 }) := by
  have h1 : 1 ≤ s.position := by omega
  have h4' : s.position ≤ 4 := by omega
  simp only [Process_Main_Menu_Selection, commit_digit, hb, hm, if_true, h4',
    store_entered_code_in_range _ _ _ h1 h4']
  simp [h4]


theorem to_uint8_eq_iff (d : Int) (h0 : 0 ≤ d) (h9 : d ≤ 9) (k : Nat) :
    to_uint8 d = k ↔ d = k := by
  unfold to_uint8
  omega

/-- Effect of one consumed edge while the cursor is on slots 1..3. -/
theorem press_commit (d : Int) (s : Globals) (hm : s.main_menu_counter = 0)
    (h1 : 1 ≤ s.position) (h3 : s.position ≤ 3) :
    press d s = some
      { s with
        pmod_enc_btn_pressed := 0
        password_counter := d
        entered_code := Function.update s.entered_code ⟨s.position - 1, by omega⟩ (to_uint8 d)
        trace := s.trace ++
          [ Out.EduBase_LCD_Set_Cursor s.position 1,
            Out.EduBase_LCD_Send_Data (char0 + d) ]
        position := s.position + 1 } := by
  unfold press
  rw [process_commit (latched d s) rfl hm h1 h3]
  rfl

/-- Effect of the consumed edge that fills slot 4. -/
theorem press_complete (d : Int) (s : Globals) (hm : s.main_menu_counter = 0)
    (h4 : s.position = 4) :
    press d s = some (evaluate_entry
      { s with
        pmod_enc_btn_pressed := 0
        password_counter := d
        entered_code := Function.update s.entered_code 3 (to_uint8 d)
        trace := s.trace ++
          [ Out.EduBase_LCD_Set_Cursor 4 1,
            Out.EduBase_LCD_Send_Data (char0 + d) ]
        position := 5 }) := by
  unfold press
  rw [process_complete (latched d s) rfl hm h4]
  rfl

/-- Three consumed edges from the first slot fill slots 1..3 and leave the
cursor on slot 4. -/
theorem presses_three (d1 d2 d3 : Int) (s : Globals) (hm : s.main_menu_counter = 0)
    (hp : s.position = 1) :
    presses [d1, d2, d3] s = some
      { s with
        pmod_enc_btn_pressed := 0
        password_counter := d3
        entered_code :=
          Function.update (Function.update (Function.update s.entered_code
            0 (to_uint8 d1)) 1 (to_uint8 d2)) 2 (to_uint8 d3)
        trace := s.trace ++
          [ Out.EduBase_LCD_Set_Cursor 1 1,
            Out.EduBase_LCD_Send_Data (char0 + d1),
            Out.EduBase_LCD_Set_Cursor 2 1,
            Out.EduBase_LCD_Send_Data (char0 + d2),
            Out.EduBase_LCD_Set_Cursor 3 1,
            Out.EduBase_LCD_Send_Data (char0 + d3) ]
        position := 4 } := by
  cases s with
  | mk st ls bp pm mm pc pos code tr =>
    simp only at hm hp
    subst hm hp
    simp only [presses]
    rw [press_commit _ _ rfl (Nat.le_refl 1) (by simp)]
    simp only []
    rw [press_commit _ _ rfl (by simp) (by simp)]
    simp only []
    rw [press_commit _ _ rfl (by simp) (by simp)]
    simp


/-- The buffer after four commits from the first slot. -/
theorem four_updates (code : Fin 4 → Nat) (a b c d : Nat) :
    Function.update (Function.update (Function.update (Function.update code
      0 a) 1 b) 2 c) 3 d = ![a, b, c, d] := by
  funext i
  fin_cases i <;> simp [Function.update]

/-- C1: four digits in 0..9 committed from the first slot make the handler
drive the indicator green and show "UNLOCKED" exactly when they are 2,3,4,5;
every other sequence drives it red and shows "LOCKED". -/
theorem C1_unlocked_iff_reference_code (s : Globals) (d1 d2 d3 d4 : Int)
    (hpos : s.position = 1) (hmenu : s.main_menu_counter = 0)
    (h1 : 0 ≤ d1 ∧ d1 ≤ 9) (h2 : 0 ≤ d2 ∧ d2 ≤ 9)
    (h3 : 0 ≤ d3 ∧ d3 ≤ 9) (h4 : 0 ≤ d4 ∧ d4 ≤ 9) :
    ∃ s3 s4 new, presses [d1, d2, d3] s = some s3 ∧ press d4 s3 = some s4 ∧
      s4.trace = s3.trace ++ new ∧
      (Out.RGB_LED_Output Color.RGB_LED_GREEN ∈ new ↔ (d1, d2, d3, d4) = (2, 3, 4, 5)) ∧
      (Out.EduBase_LCD_Display_String "UNLOCKED" ∈ new ↔ (d1, d2, d3, d4) = (2, 3, 4, 5)) ∧
      (Out.RGB_LED_Output Color.RGB_LED_RED ∈ new ↔ (d1, d2, d3, d4) ≠ (2, 3, 4, 5)) ∧
      (Out.EduBase_LCD_Display_String "LOCKED" ∈ new ↔ (d1, d2, d3, d4) ≠ (2, 3, 4, 5)) := by
  have hk : check_password ![to_uint8 d1, to_uint8 d2, to_uint8 d3, to_uint8 d4] ≠ 0 ↔
      (d1, d2, d3, d4) = (2, 3, 4, 5) := by
    rw [check_password_ne_zero_iff]
    have e1 := to_uint8_eq_iff d1 h1.1 h1.2 2
    have e2 := to_uint8_eq_iff d2 h2.1 h2.2 3
    have e3 := to_uint8_eq_iff d3 h3.1 h3.2 4
    have e4 := to_uint8_eq_iff d4 h4.1 h4.2 5
    simp only [Prod.mk.injEq, Matrix.cons_val_zero, Matrix.cons_val_one, Matrix.head_cons]
    have e5 : (![to_uint8 d1, to_uint8 d2, to_uint8 d3, to_uint8 d4] : Fin 4 → Nat) 2
        = to_uint8 d3 := rfl
    have e6 : (![to_uint8 d1, to_uint8 d2, to_uint8 d3, to_uint8 d4] : Fin 4 → Nat) 3
        = to_uint8 d4 := rfl
    rw [e5, e6, e1, e2, e3, e4]
    norm_cast
  refine ⟨_, _,
    [Out.EduBase_LCD_Set_Cursor 4 1, Out.EduBase_LCD_Send_Data (char0 + d4)] ++
      (evaluate_entry { s with
        entered_code := ![to_uint8 d1, to_uint8 d2, to_uint8 d3, to_uint8 d4]
        trace := [] }).trace,
    presses_three d1 d2 d3 s hmenu hpos, press_complete d4 _ hmenu rfl, ?_, ?_⟩
  · simp only [evaluate_entry, four_updates, List.append_assoc, List.nil_append]
  · by_cases hc : (d1, d2, d3, d4) = (2, 3, 4, 5)
    · have hk1 := hk.mpr hc
      simp [evaluate_entry, hk1, hc]
    · have hk1 : ¬ check_password ![to_uint8 d1, to_uint8 d2, to_uint8 d3, to_uint8 d4] ≠ 0 :=
        fun h => hc (hk.mp h)
      simp only [ne_eq, not_not] at hk1
      simp [evaluate_entry, hk1, hc]

/-- Witness for C1: the reference code entered from the boot-time buffer. -/
theorem C1_unlocked_iff_reference_code_witness :
    (entry_state.position = 1 ∧ entry_state.main_menu_counter = 0) ∧
    ∃ s3 s4 new, presses [2, 3, 4] entry_state = some s3 ∧ press 5 s3 = some s4 ∧
      s4.trace = s3.trace ++ new ∧
      (Out.RGB_LED_Output Color.RGB_LED_GREEN ∈ new ↔
        ((2 : Int), (3 : Int), (4 : Int), (5 : Int)) = (2, 3, 4, 5)) ∧
      (Out.EduBase_LCD_Display_String "UNLOCKED" ∈ new ↔
        ((2 : Int), (3 : Int), (4 : Int), (5 : Int)) = (2, 3, 4, 5)) ∧
      (Out.RGB_LED_Output Color.RGB_LED_RED ∈ new ↔
        ((2 : Int), (3 : Int), (4 : Int), (5 : Int)) ≠ (2, 3, 4, 5)) ∧
      (Out.EduBase_LCD_Display_String "LOCKED" ∈ new ↔
        ((2 : Int), (3 : Int), (4 : Int), (5 : Int)) ≠ (2, 3, 4, 5)) :=
  ⟨⟨rfl, rfl⟩, C1_unlocked_iff_reference_code entry_state 2 3 4 5 rfl rfl
    (by decide) (by decide) (by decide) (by decide)⟩


theorem to_uint8_digit (d : Int) (h0 : 0 ≤ d) (h9 : d ≤ 9) : (to_uint8 d : Int) = d := by
  unfold to_uint8
  omega

theorem verdicts_append (t u : List Out) : verdicts (t ++ u) = verdicts t + verdicts u := by
  simp [verdicts, List.countP_append]

/-- A consumed edge on slots 1..3: the handler returns what the commit
produced, one slot further, with no verdict shown. -/
theorem press_commit_spec (d : Int) (s : Globals) (hm : s.main_menu_counter = 0)
    (h1 : 1 ≤ s.position) (h3 : s.position ≤ 3) :
    ∃ s1, press d s = some s1 ∧
      commit_digit { latched d s with pmod_enc_btn_pressed := 0 } = some s1 ∧
      s1.position = s.position + 1 ∧ s1.main_menu_counter = 0 ∧
      verdicts s1.trace = verdicts s.trace ∧
      (∀ i : Fin 4, s1.entered_code i =
        if i.val = s.position - 1 then to_uint8 d else s.entered_code i) := by
  refine ⟨_, press_commit d s hm h1 h3, ?_, rfl, hm, ?_, ?_⟩
  · have h4 : s.position ≤ 4 := by omega
    have hmod : (s.position + 1) % 256 = s.position + 1 := by omega
    simp only [commit_digit, latched, h4, if_true,
      store_entered_code_in_range _ _ _ h1 h4, hmod]
  · simp [verdicts_append, verdicts]
  · intro i
    by_cases hi : i.val = s.position - 1
    · have hj : i = ⟨s.position - 1, by omega⟩ := Fin.ext hi
      rw [if_pos hi]
      show Function.update s.entered_code _ (to_uint8 d) i = to_uint8 d
      rw [hj, Function.update_same]
    · have : i ≠ ⟨s.position - 1, by omega⟩ := fun h => hi (by rw [h])
      simp [hi, Function.update_noteq this]

/-- The consumed edge on slot 4: the commit brings the cursor to 5 and the
handler evaluates the buffer, showing one verdict. -/
theorem press_complete_spec (d : Int) (s : Globals) (hm : s.main_menu_counter = 0)
    (h4 : s.position = 4) :
    ∃ c4, commit_digit { latched d s with pmod_enc_btn_pressed := 0 } = some c4 ∧
      c4.position = 5 ∧
      (∀ i : Fin 4, c4.entered_code i =
        if i.val = 3 then to_uint8 d else s.entered_code i) ∧
      press d s = some (evaluate_entry c4) ∧
      verdicts (evaluate_entry c4).trace = verdicts s.trace + 1 := by
  refine ⟨_, ?_, ?_, ?_, press_complete d s hm h4, ?_⟩
  · have h1 : 1 ≤ s.position := by omega
    have h4' : s.position ≤ 4 := by omega
    simp only [commit_digit, latched, h4', if_true,
      store_entered_code_in_range _ _ _ h1 h4']
    simp [h4]
  · rfl
  · intro i
    fin_cases i <;> simp [Function.update]
  · by_cases hc : check_password (Function.update s.entered_code 3 (to_uint8 d)) = 0 <;>
      simp [evaluate_entry, verdicts_append, verdicts, hc]

/-- C2: starting from the first slot, the first three consumed edges only
commit (the handler returns the result of the commit and shows no verdict);
the fourth commit brings the cursor to 5 and the handler evaluates once, on a
buffer holding exactly the four digits in entry order. -/
theorem C2_evaluation_after_exactly_four_commits (s : Globals) (d1 d2 d3 d4 : Int)
    (hpos : s.position = 1) (hmenu : s.main_menu_counter = 0)
    (h1 : 0 ≤ d1 ∧ d1 ≤ 9) (h2 : 0 ≤ d2 ∧ d2 ≤ 9)
    (h3 : 0 ≤ d3 ∧ d3 ≤ 9) (h4 : 0 ≤ d4 ∧ d4 ≤ 9) :
    ∃ s1 s2 s3 c4,
      press d1 s = some s1 ∧ press d2 s1 = some s2 ∧ press d3 s2 = some s3 ∧
      commit_digit { latched d1 s with pmod_enc_btn_pressed := 0 } = some s1 ∧
      commit_digit { latched d2 s1 with pmod_enc_btn_pressed := 0 } = some s2 ∧
      commit_digit { latched d3 s2 with pmod_enc_btn_pressed := 0 } = some s3 ∧
      s1.position = 2 ∧ s2.position = 3 ∧ s3.position = 4 ∧
      verdicts s1.trace = verdicts s.trace ∧
      verdicts s2.trace = verdicts s.trace ∧
      verdicts s3.trace = verdicts s.trace ∧
      commit_digit { latched d4 s3 with pmod_enc_btn_pressed := 0 } = some c4 ∧
      c4.position = 5 ∧
      (∀ i, (c4.entered_code i : Int) = ![d1, d2, d3, d4] i) ∧
      press d4 s3 = some (evaluate_entry c4) ∧
      verdicts (evaluate_entry c4).trace = verdicts s.trace + 1 := by
  obtain ⟨s1, p1, c1, q1, m1, v1, b1⟩ :=
    press_commit_spec d1 s hmenu (by omega) (by omega)
  obtain ⟨s2, p2, c2, q2, m2, v2, b2⟩ :=
    press_commit_spec d2 s1 m1 (by omega) (by omega)
  obtain ⟨s3, p3, c3, q3, m3, v3, b3⟩ :=
    press_commit_spec d3 s2 m2 (by omega) (by omega)
  obtain ⟨c4, e4, q4, b4, p4, v4⟩ := press_complete_spec d4 s3 m3 (by omega)
  refine ⟨s1, s2, s3, c4, p1, p2, p3, c1, c2, c3, by omega, by omega, by omega,
    v1, by omega, by omega, e4, q4, ?_, p4, by omega⟩
  intro i
  have u1 := to_uint8_digit d1 h1.1 h1.2
  have u2 := to_uint8_digit d2 h2.1 h2.2
  have u3 := to_uint8_digit d3 h3.1 h3.2
  have u4 := to_uint8_digit d4 h4.1 h4.2
  rw [b4 i, b3 i, b2 i, b1 i, q2, q1, hpos]
  fin_cases i <;> simp [u1, u2, u3, u4]

/-- Witness for C2: the digits 1,1,1,1 entered from the boot-time buffer. -/
theorem C2_evaluation_after_exactly_four_commits_witness :
    (entry_state.position = 1 ∧ entry_state.main_menu_counter = 0) ∧
    ∃ s1 s2 s3 c4,
      press 1 entry_state = some s1 ∧ press 1 s1 = some s2 ∧ press 1 s2 = some s3 ∧
      commit_digit { latched 1 entry_state with pmod_enc_btn_pressed := 0 } = some s1 ∧
      commit_digit { latched 1 s1 with pmod_enc_btn_pressed := 0 } = some s2 ∧
      commit_digit { latched 1 s2 with pmod_enc_btn_pressed := 0 } = some s3 ∧
      s1.position = 2 ∧ s2.position = 3 ∧ s3.position = 4 ∧
      verdicts s1.trace = verdicts entry_state.trace ∧
      verdicts s2.trace = verdicts entry_state.trace ∧
      verdicts s3.trace = verdicts entry_state.trace ∧
      commit_digit { latched 1 s3 with pmod_enc_btn_pressed := 0 } = some c4 ∧
      c4.position = 5 ∧
      (∀ i, (c4.entered_code i : Int) = ![1, 1, 1, 1] i) ∧
      press 1 s3 = some (evaluate_entry c4) ∧
      verdicts (evaluate_entry c4).trace = verdicts entry_state.trace + 1 :=
  ⟨⟨rfl, rfl⟩, C2_evaluation_after_exactly_four_commits entry_state 1 1 1 1 rfl rfl
    (by decide) (by decide) (by decide) (by decide)⟩

/-- C5: the call that commits the fourth digit returns with the cursor on
slot 1 and the digit counter at 0, whatever the verdict. -/
theorem C5_attempt_resets_cursor_and_digit (s : Globals)
    (hb : s.pmod_enc_btn_pressed = 1) (hmenu : s.main_menu_counter = 0)
    (hpos : s.position = 4) :
    ∃ s1, Process_Main_Menu_Selection s = some s1 ∧
      s1.position = 1 ∧ s1.password_counter = 0 :=
  ⟨_, process_complete s hb hmenu hpos, rfl, rfl⟩

/-- Witness for C5: a mismatching fourth digit. -/
theorem C5_attempt_resets_cursor_and_digit_witness :
    ((latched 7 { entry_state with position := 4 }).pmod_enc_btn_pressed = 1 ∧
      (latched 7 { entry_state with position := 4 }).main_menu_counter = 0 ∧
      (latched 7 { entry_state with position := 4 }).position = 4) ∧
    ∃ s1, Process_Main_Menu_Selection (latched 7 { entry_state with position := 4 }) = some s1 ∧
      s1.position = 1 ∧ s1.password_counter = 0 :=
  ⟨⟨rfl, rfl, rfl⟩,
    C5_attempt_resets_cursor_and_digit (latched 7 { entry_state with position := 4 }) rfl rfl rfl⟩

/-- C7: one run of the sampler raises the edge flag when the button reads
pressed in the new sample and not pressed in the previous one, leaves the flag
as it was otherwise, and always ends with `last_state` holding the new sample. -/
theorem C7_sampler_edge_detection (drv : Driver) (hw : Nat) (s : Globals) :
    ((drv.PMOD_ENC_Button_Read (hw % 256) = true ∧
        drv.PMOD_ENC_Button_Read s.last_state = false) →
      (PMOD_ENC_Task drv hw s).pmod_enc_btn_pressed = 1) ∧
    (¬ (drv.PMOD_ENC_Button_Read (hw % 256) = true ∧
        drv.PMOD_ENC_Button_Read s.last_state = false) →
      (PMOD_ENC_Task drv hw s).pmod_enc_btn_pressed = s.pmod_enc_btn_pressed) ∧
    (PMOD_ENC_Task drv hw s).state = hw % 256 ∧
    (PMOD_ENC_Task drv hw s).last_state = hw % 256 := by
  refine ⟨?_, ?_, rfl, rfl⟩
  · intro h
    simp [h.1, h.2, PMOD_ENC_Task]
  · intro h
    have hn : ¬ ((drv.PMOD_ENC_Button_Read (hw % 256) &&
        !drv.PMOD_ENC_Button_Read s.last_state) = true) := by
      intro hc
      apply h
      simpa using hc
    simp only [hn, if_false, PMOD_ENC_Task, Bool.false_eq_true]

/-- Witness for C7: a rising edge seen by the sample driver. -/
theorem C7_sampler_edge_detection_witness :
    (PMOD_ENC_Task demo_driver 1 entry_state).pmod_enc_btn_pressed = 1 :=
  (C7_sampler_edge_detection demo_driver 1 entry_state).1 ⟨by decide, by decide⟩

/-- C8: one run of the sampler leaves the digit counter at
`min 9 (max 0 (v + d))`, `v` being its prior value and `d` the decoded
rotation; at 9 a step up stays 9 and at 0 a step down stays 0. -/
theorem C8_digit_counter_saturates (drv : Driver) (hw : Nat) (s : Globals) :
    (PMOD_ENC_Task drv hw s).password_counter =
      min 9 (max 0 (s.password_counter + drv.PMOD_ENC_Get_Rotation (hw % 256) s.last_state)) ∧
    (s.password_counter = 9 → drv.PMOD_ENC_Get_Rotation (hw % 256) s.last_state = 1 →
      (PMOD_ENC_Task drv hw s).password_counter = 9) ∧
    (s.password_counter = 0 → drv.PMOD_ENC_Get_Rotation (hw % 256) s.last_state = -1 →
      (PMOD_ENC_Task drv hw s).password_counter = 0) := by
  have key : (PMOD_ENC_Task drv hw s).password_counter =
      min 9 (max 0 (s.password_counter +
        drv.PMOD_ENC_Get_Rotation (hw % 256) s.last_state)) := by
    simp only [PASSWORD_MAX_COUNT, PMOD_ENC_Task]
    split_ifs <;> omega
  refine ⟨key, ?_, ?_⟩
  · intro hv hd
    rw [key, hv, hd]
    decide
  · intro hv hd
    rw [key, hv, hd]
    decide

/-- Witness for C8: a clockwise step at 9 and a counter-clockwise step at 0. -/
theorem C8_digit_counter_saturates_witness :
    (PMOD_ENC_Task demo_driver 2 { entry_state with password_counter := 9 }).password_counter = 9 ∧
    (PMOD_ENC_Task demo_driver 4 entry_state).password_counter = 0 :=
  ⟨(C8_digit_counter_saturates demo_driver 2 { entry_state with password_counter := 9 }).2.1
      rfl (by decide),
    (C8_digit_counter_saturates demo_driver 4 entry_state).2.2 rfl (by decide)⟩

/-- Four consumed edges from the first slot: the attempt is evaluated and the
handler returns with the four digits still in the buffer. -/
theorem presses_four (d1 d2 d3 d4 : Int) (s : Globals) (hm : s.main_menu_counter = 0)
    (hp : s.position = 1) :
    ∃ s4, presses [d1, d2, d3, d4] s = some s4 ∧
      s4.entered_code = ![to_uint8 d1, to_uint8 d2, to_uint8 d3, to_uint8 d4] ∧
      s4.position = 1 ∧ s4.password_counter = 0 := by
  cases s with
  | mk st ls bp pm mm pc pos code tr =>
    simp only at hm hp
    subst hm hp
    simp only [presses]
    rw [press_commit _ _ rfl (Nat.le_refl 1) (by simp)]
    simp only []
    rw [press_commit _ _ rfl (by simp) (by simp)]
    simp only []
    rw [press_commit _ _ rfl (by simp) (by simp)]
    simp only []
    rw [press_complete _ _ rfl (by simp)]
    refine ⟨_, rfl, ?_, rfl, rfl⟩
    simp only [evaluate_entry]
    exact four_updates code _ _ _ _

/-- C9 as stated fails: after the attempt 1,1,1,1 the handler returns with the
buffer still holding 1,1,1,1, so not every slot is zero. -/
theorem C9_buffer_not_cleared_counterexample :
    ¬ (∀ s4, presses [1, 1, 1, 1] entry_state = some s4 → ∀ i, s4.entered_code i = 0) := by
  intro h
  obtain ⟨s4, e, hc, _, _⟩ := presses_four 1 1 1 1 entry_state rfl rfl
  have h0 := h s4 e 0
  rw [hc] at h0
  revert h0
  decide

/-- C9 (amended): the handler does not clear the buffer.  After four digits in
0..9 committed from the first slot, the call that completes the attempt
returns with `entered_code` still holding those four digits in entry order. -/
theorem C9_buffer_keeps_attempt_digits (s : Globals) (d1 d2 d3 d4 : Int)
    (hpos : s.position = 1) (hmenu : s.main_menu_counter = 0)
    (h1 : 0 ≤ d1 ∧ d1 ≤ 9) (h2 : 0 ≤ d2 ∧ d2 ≤ 9)
    (h3 : 0 ≤ d3 ∧ d3 ≤ 9) (h4 : 0 ≤ d4 ∧ d4 ≤ 9) :
    ∃ s4, presses [d1, d2, d3, d4] s = some s4 ∧
      ∀ i, (s4.entered_code i : Int) = ![d1, d2, d3, d4] i := by
  obtain ⟨s4, e, hc, _, _⟩ := presses_four d1 d2 d3 d4 s hmenu hpos
  refine ⟨s4, e, ?_⟩
  intro i
  have u1 := to_uint8_digit d1 h1.1 h1.2
  have u2 := to_uint8_digit d2 h2.1 h2.2
  have u3 := to_uint8_digit d3 h3.1 h3.2
  have u4 := to_uint8_digit d4 h4.1 h4.2
  rw [hc]
  fin_cases i <;> simp [u1, u2, u3, u4]

/-- Witness for C9 (amended): the attempt 1,1,1,1 from the boot-time buffer. -/
theorem C9_buffer_keeps_attempt_digits_witness :
    (entry_state.position = 1 ∧ entry_state.main_menu_counter = 0) ∧
    ∃ s4, presses [1, 1, 1, 1] entry_state = some s4 ∧
      ∀ i, (s4.entered_code i : Int) = ![1, 1, 1, 1] i :=
  ⟨⟨rfl, rfl⟩, C9_buffer_keeps_attempt_digits entry_state 1 1 1 1 rfl rfl
    (by decide) (by decide) (by decide) (by decide)⟩


/-! ## The handler on an arbitrary state -/

theorem process_idle (s : Globals) (hb : s.pmod_enc_btn_pressed ≠ 1) :
    Process_Main_Menu_Selection s = some s := by
  simp only [Process_Main_Menu_Selection, hb, if_false]

theorem process_other_menu (s : Globals) (hb : s.pmod_enc_btn_pressed = 1)
    (hm : s.main_menu_counter ≠ 0) :
    Process_Main_Menu_Selection s = some { s with pmod_enc_btn_pressed := 0 } := by
  simp only [Process_Main_Menu_Selection, hb, hm, if_true, if_false]

theorem process_fault (s : Globals) (hb : s.pmod_enc_btn_pressed = 1)
    (hm : s.main_menu_counter = 0) (h0 : s.position = 0) :
    Process_Main_Menu_Selection s = none := by
  simp only [Process_Main_Menu_Selection, commit_digit, hb, hm, if_true, h0,
    store_entered_code_zero, Nat.zero_le]

theorem process_at_five (s : Globals) (hb : s.pmod_enc_btn_pressed = 1)
    (hm : s.main_menu_counter = 0) (h5 : s.position = 5) :
    Process_Main_Menu_Selection s
      = some (evaluate_entry { s with pmod_enc_btn_pressed := 0 }) := by
  simp [Process_Main_Menu_Selection, commit_digit, hb, hm, h5]

theorem process_beyond (s : Globals) (hb : s.pmod_enc_btn_pressed = 1)
    (hm : s.main_menu_counter = 0) (h6 : 5 < s.position) :
    Process_Main_Menu_Selection s = some { s with pmod_enc_btn_pressed := 0 } := by
  have h4 : ¬ s.position ≤ 4 := by omega
  have h5 : ¬ s.position = 5 := by omega
  simp [Process_Main_Menu_Selection, commit_digit, hb, hm, h4, h5]

/-- What a returning call of the handler leaves untouched, and what it does to
the edge flag, the digit counter and the cursor. -/
theorem process_frame (s s1 : Globals) (h : Process_Main_Menu_Selection s = some s1) :
    s1.state = s.state ∧ s1.last_state = s.last_state ∧
    s1.main_menu_counter = s.main_menu_counter ∧
    s1.prev_main_menu_counter = s.prev_main_menu_counter ∧
    (s1.password_counter = s.password_counter ∨ s1.password_counter = 0) ∧
    (s.pmod_enc_btn_pressed = 1 → s1.pmod_enc_btn_pressed = 0) ∧
    (s.pmod_enc_btn_pressed ≠ 1 → s1 = s) ∧
    (1 ≤ s.position → s.position ≤ 4 → 1 ≤ s1.position ∧ s1.position ≤ 4) := by
  by_cases hb : s.pmod_enc_btn_pressed = 1
  · by_cases hm : s.main_menu_counter = 0
    · rcases Nat.lt_or_ge s.position 1 with p0 | p1
      · rw [process_fault s hb hm (by omega)] at h
        exact absurd h (by simp)
      · rcases Nat.lt_or_ge s.position 4 with p3 | p4
        · rw [process_commit s hb hm p1 (by omega)] at h
          cases h
          simp only [hb, not_true_eq_false, true_or, and_self, true_and, false_implies,
            forall_const]
          omega
        · rcases Nat.lt_or_ge s.position 5 with q4 | q5
          · rw [process_complete s hb hm (by omega)] at h
            cases h
            simp [evaluate_entry, hb]
          · rcases Nat.lt_or_ge s.position 6 with q5' | q6
            · rw [process_at_five s hb hm (by omega)] at h
              cases h
              simp [evaluate_entry, hb]
            · rw [process_beyond s hb hm (by omega)] at h
              cases h
              simp only [hb, not_true_eq_false, true_or, and_self, true_and, false_implies,
                forall_const]
              omega
    · rw [process_other_menu s hb hm] at h
      cases h
      simp only [hb, not_true_eq_false, true_or, and_self, true_and, false_implies,
        forall_const]
      omega
  · rw [process_idle s hb] at h
    cases h
    refine ⟨rfl, rfl, rfl, rfl, Or.inl rfl, fun h1 => absurd h1 hb, fun _ => rfl, ?_⟩
    intro a b
    exact ⟨a, b⟩

/-- The handler returns whenever the cursor is not 0. -/
theorem process_returns (s : Globals) (hp : 1 ≤ s.position) :
    ∃ s1, Process_Main_Menu_Selection s = some s1 := by
  by_cases hb : s.pmod_enc_btn_pressed = 1
  · by_cases hm : s.main_menu_counter = 0
    · rcases Nat.lt_or_ge s.position 4 with p3 | p4
      · exact ⟨_, process_commit s hb hm hp (by omega)⟩
      · rcases Nat.lt_or_ge s.position 5 with q4 | q5
        · exact ⟨_, process_complete s hb hm (by omega)⟩
        · rcases Nat.lt_or_ge s.position 6 with q5' | q6
          · exact ⟨_, process_at_five s hb hm (by omega)⟩
          · exact ⟨_, process_beyond s hb hm (by omega)⟩
    · exact ⟨_, process_other_menu s hb hm⟩
  · exact ⟨_, process_idle s hb⟩

/-- A call of the handler that finds no latched edge does nothing visible. -/
theorem process_idle_not_acted (s s1 : Globals) (hb : s.pmod_enc_btn_pressed ≠ 1)
    (h : Process_Main_Menu_Selection s = some s1) : acted s s1 = false := by
  rw [process_idle s hb] at h
  cases h
  simp [acted]

/-! ## The program invariant -/

theorem task_menu_counter (drv : Driver) (hw : Nat) (s : Globals)
    (h : s.main_menu_counter = 0) : (PMOD_ENC_Task drv hw s).main_menu_counter = 0 := by
  simp [h, MENU_MAX_COUNT, PMOD_ENC_Task]

theorem task_password_counter (drv : Driver) (hw : Nat) (s : Globals) :
    0 ≤ (PMOD_ENC_Task drv hw s).password_counter ∧
    (PMOD_ENC_Task drv hw s).password_counter ≤ 9 := by
  simp only [PASSWORD_MAX_COUNT, PMOD_ENC_Task]
  split_ifs <;> omega

theorem main_redraw_same (s : Globals)
    (h : s.prev_main_menu_counter = s.main_menu_counter) : main_redraw s = s := by
  simp [main_redraw, h]

theorem main_redraw_menu0 (s : Globals) (hm : s.main_menu_counter = 0)
    (hd : s.prev_main_menu_counter ≠ s.main_menu_counter) :
    main_redraw s =
      { s with
        position := 1
        prev_main_menu_counter := s.main_menu_counter
        trace := s.trace ++
          [ Out.EduBase_LCD_Clear_Display,
            Out.EduBase_LCD_Set_Cursor 1 0,
            Out.EduBase_LCD_Display_String "ENTER PASSWORD",
            Out.EduBase_LCD_Set_Cursor 0 1,
            Out.EduBase_LCD_Send_Data 3,
            Out.EduBase_LCD_Set_Cursor 1 1,
            Out.EduBase_LCD_Set_Cursor 1 1,
            Out.EduBase_LCD_Send_Data (char0 + s.password_counter) ] } := by
  simp only [main_redraw, Display_Main_Menu, if_pos hd, if_pos hm, List.append_assoc,
    List.singleton_append]

theorem main_refresh_frame (s : Globals) :
    ∃ t, main_refresh s = { s with trace := s.trace ++ t } := by
  unfold main_refresh
  split_ifs
  · exact ⟨_, rfl⟩
  · exact ⟨[], by simp⟩

theorem inv_boot : Inv Machine.boot := by
  simp [Inv, Machine.boot, Globals.static_init]

theorem inv_step (drv : Driver) (e : Event) (m m1 : Machine) (hi : Inv m)
    (h : step drv e m = some m1) : Inv m1 := by
  obtain ⟨hm, hp0, hp9, hpos, hz⟩ := hi
  cases e with
  | tick hw =>
    simp only [step, Option.some.injEq] at h
    subst h
    refine ⟨task_menu_counter drv hw _ hm, (task_password_counter drv hw _).1,
      (task_password_counter drv hw _).2, hpos, ?_⟩
    intro h0
    have := hz h0
    refine ⟨?_, this.2⟩
    show m.g.prev_main_menu_counter ≠ (PMOD_ENC_Task drv hw m.g).main_menu_counter
    rw [task_menu_counter drv hw _ hm, ← hm]
    exact this.1
  | main hw =>
    simp only [step, main_step] at h
    cases hpc : m.pc with
    | startup =>
      rw [hpc] at h
      simp only [Option.some.injEq] at h
      subst h
      exact ⟨hm, hp0, hp9, hpos, fun h0 => ⟨(hz h0).1, Or.inr rfl⟩⟩
    | redraw =>
      rw [hpc] at h
      simp only [Option.some.injEq] at h
      subst h
      by_cases hd : m.g.prev_main_menu_counter = m.g.main_menu_counter
      · simp only [Inv, main_redraw_same m.g hd]
        refine ⟨hm, hp0, hp9, hpos, ?_⟩
        intro h0
        exact absurd hd (hz h0).1
      · simp only [Inv, main_redraw_menu0 m.g hm hd]
        exact ⟨hm, hp0, hp9, by decide, fun h0 => absurd h0 (by decide)⟩
    | select =>
      rw [hpc] at h
      cases hq : Process_Main_Menu_Selection m.g with
      | none => rw [hq] at h; exact absurd h (by simp)
      | some g1 =>
        rw [hq] at h
        simp only [Option.some.injEq] at h
        subst h
        have hne : m.g.position ≠ 0 := by
          intro h0
          rcases (hz h0).2 with h1 | h1 <;> rw [hpc] at h1 <;> cases h1
        obtain ⟨_, _, f3, _, f5, _, _, f8⟩ := process_frame m.g g1 hq
        have hp := f8 (by omega) hpos
        refine ⟨by rw [f3]; exact hm, ?_, ?_, hp.2, ?_⟩
        · show 0 ≤ g1.password_counter
          rcases f5 with f5 | f5 <;> omega
        · show g1.password_counter ≤ 9
          rcases f5 with f5 | f5 <;> omega
        · intro h0
          exact absurd h0 (by show g1.position ≠ 0; omega)
    | refresh =>
      rw [hpc] at h
      simp only [Option.some.injEq] at h
      subst h
      have hne : m.g.position ≠ 0 := by
        intro h0
        rcases (hz h0).2 with h1 | h1 <;> rw [hpc] at h1 <;> cases h1
      obtain ⟨t, e⟩ := main_refresh_frame m.g
      simp only [Inv, e]
      exact ⟨hm, hp0, hp9, hpos, fun h0 => absurd h0 hne⟩
    | sleep =>
      rw [hpc] at h
      simp only [Option.some.injEq] at h
      subst h
      have hne : m.g.position ≠ 0 := by
        intro h0
        rcases (hz h0).2 with h1 | h1 <;> rw [hpc] at h1 <;> cases h1
      exact ⟨hm, hp0, hp9, hpos, fun h0 => absurd h0 hne⟩

theorem inv_run (drv : Driver) (es : List Event) (m m1 : Machine) (hi : Inv m)
    (h : run drv es m = some m1) : Inv m1 := by
  induction es generalizing m with
  | nil =>
    simp only [run, Option.some.injEq] at h
    subst h
    exact hi
  | cons e es ih =>
    simp only [run] at h
    cases hs : step drv e m with
    | none => rw [hs] at h; exact absurd h (by simp)
    | some m2 =>
      rw [hs] at h
      exact ih m2 (inv_step drv e m m2 hi hs) h

theorem inv_reachable (drv : Driver) (m : Machine) (h : Reachable drv m) : Inv m := by
  obtain ⟨es, he⟩ := h
  exact inv_run drv es _ m inv_boot he

/-- Under the invariant the cursor is in 1..4 once the first redraw is done. -/
theorem inv_cursor (m : Machine) (hi : Inv m)
    (hpc : m.pc = Phase.select ∨ m.pc = Phase.refresh ∨ m.pc = Phase.sleep) :
    1 ≤ m.g.position ∧ m.g.position ≤ 4 := by
  obtain ⟨_, _, _, hpos, hz⟩ := hi
  refine ⟨?_, hpos⟩
  by_contra hlt
  have h0 : m.g.position = 0 := by omega
  rcases (hz h0).2 with h1 | h1 <;> rcases hpc with h2 | h2 | h2 <;>
    rw [h1] at h2 <;> cases h2

theorem step_total (drv : Driver) (e : Event) (m : Machine) (hi : Inv m) :
    ∃ m1, step drv e m = some m1 := by
  cases e with
  | tick hw => exact ⟨_, rfl⟩
  | main hw =>
    simp only [step, main_step]
    cases hpc : m.pc with
    | startup => exact ⟨_, rfl⟩
    | redraw => exact ⟨_, rfl⟩
    | select =>
      obtain ⟨g1, hg⟩ := process_returns m.g (inv_cursor m hi (Or.inl hpc)).1
      exact ⟨⟨g1, Phase.refresh⟩, by simp only [hg]⟩
    | refresh => exact ⟨_, rfl⟩
    | sleep => exact ⟨_, rfl⟩

/-- From a state satisfying the invariant every run goes through: no store
is ever out of bounds. -/
theorem run_total (drv : Driver) (es : List Event) (m : Machine) (hi : Inv m) :
    ∃ m1, run drv es m = some m1 := by
  induction es generalizing m with
  | nil => exact ⟨m, rfl⟩
  | cons e es ih =>
    obtain ⟨m2, h2⟩ := step_total drv e m hi
    obtain ⟨m3, h3⟩ := ih m2 (inv_step drv e m m2 hi h2)
    exact ⟨m3, by simp only [run, h2, h3]⟩

theorem sample_run_reaches :
    run demo_driver sample_run Machine.boot = some sample_machine := rfl

/-- C3: in every state the program can reach, by any interleaving of sampler
ticks (whatever rotation the driver decodes) and statements of the main loop,
the digit counter is within 0..9 and the menu counter within
0..MENU_MAX_COUNT, that is 0; a further tick does not change the selection. -/
theorem C3_counters_stay_in_range (drv : Driver) (m : Machine) (h : Reachable drv m) :
    (0 ≤ m.g.password_counter ∧ m.g.password_counter ≤ 9) ∧
    (0 ≤ m.g.main_menu_counter ∧ m.g.main_menu_counter ≤ MENU_MAX_COUNT) ∧
    m.g.main_menu_counter = 0 ∧
    ∀ hw, (PMOD_ENC_Task drv hw m.g).main_menu_counter = m.g.main_menu_counter := by
  obtain ⟨hm, hp0, hp9, _, _⟩ := inv_reachable drv m h
  refine ⟨⟨hp0, hp9⟩, ⟨by omega, by rw [hm]; decide⟩, hm, ?_⟩
  intro hw
  rw [task_menu_counter drv hw _ hm, hm]

/-- Witness for C3: the state reached by `sample_run`. -/
theorem C3_counters_stay_in_range_witness :
    Reachable demo_driver sample_machine ∧
    (0 ≤ sample_machine.g.password_counter ∧ sample_machine.g.password_counter ≤ 9) ∧
    (0 ≤ sample_machine.g.main_menu_counter ∧
      sample_machine.g.main_menu_counter ≤ MENU_MAX_COUNT) ∧
    sample_machine.g.main_menu_counter = 0 ∧
    ∀ hw, (PMOD_ENC_Task demo_driver hw sample_machine.g).main_menu_counter
      = sample_machine.g.main_menu_counter :=
  ⟨⟨sample_run, sample_run_reaches⟩,
    C3_counters_stay_in_range demo_driver sample_machine ⟨sample_run, sample_run_reaches⟩⟩

/-- C6: in every state the program can reach the cursor is at most 5 (at most
4 between statements, 5 only inside the handler right after the fourth
commit); it is in 1..4 when the handler is entered and when it has returned;
the store the handler makes is at index cursor-1, within 0..3, so the start-up
value 0 is never used as a write position and no run ever stores out of
bounds. -/
theorem C6_cursor_and_write_index_bounds (drv : Driver) (m : Machine)
    (h : Reachable drv m) :
    m.g.position ≤ 5 ∧
    (m.pc = Phase.select ∨ m.pc = Phase.refresh →
      1 ≤ m.g.position ∧ m.g.position ≤ 4) ∧
    (m.pc = Phase.select →
      (0 ≤ (m.g.position : Int) - 1 ∧ (m.g.position : Int) - 1 ≤ 3) ∧
      (∃ code, store_entered_code m.g.entered_code ((m.g.position : Int) - 1)
        (to_uint8 m.g.password_counter) = some code) ∧
      (∃ c, commit_digit { m.g with pmod_enc_btn_pressed := 0 } = some c ∧
        c.position ≤ 5) ∧
      (∃ g1, Process_Main_Menu_Selection m.g = some g1)) ∧
    (∀ es, ∃ m1, run drv es m = some m1) := by
  have hi := inv_reachable drv m h
  have h4 : m.g.position ≤ 4 := hi.2.2.2.1
  refine ⟨by omega, ?_, ?_, fun es => run_total drv es m hi⟩
  · intro hpc
    rcases hpc with hpc | hpc
    · exact inv_cursor m hi (Or.inl hpc)
    · exact inv_cursor m hi (Or.inr (Or.inl hpc))
  · intro hpc
    have hc := inv_cursor m hi (Or.inl hpc)
    refine ⟨by omega, ⟨_, store_entered_code_in_range _ _ _ hc.1 hc.2⟩, ?_,
      process_returns m.g hc.1⟩
    refine ⟨_, commit_digit_in_range { m.g with pmod_enc_btn_pressed := 0 } hc.1 hc.2, ?_⟩
    show m.g.position + 1 ≤ 5
    omega

/-- Witness for C6: the state reached by `sample_run`, where the handler is due. -/
theorem C6_cursor_and_write_index_bounds_witness :
    Reachable demo_driver sample_machine ∧ sample_machine.pc = Phase.select ∧
    1 ≤ sample_machine.g.position ∧ sample_machine.g.position ≤ 4 :=
  ⟨⟨sample_run, sample_run_reaches⟩, rfl,
    (C6_cursor_and_write_index_bounds demo_driver sample_machine
      ⟨sample_run, sample_run_reaches⟩).2.1 (Or.inl rfl)⟩


/-! ## Edge triggering -/

theorem task_flag (drv : Driver) (hw : Nat) (s : Globals) :
    (PMOD_ENC_Task drv hw s).pmod_enc_btn_pressed =
      if drv.PMOD_ENC_Button_Read (hw % 256) && !drv.PMOD_ENC_Button_Read s.last_state then 1
      else s.pmod_enc_btn_pressed := rfl

theorem task_last_state (drv : Driver) (hw : Nat) (s : Globals) :
    (PMOD_ENC_Task drv hw s).last_state = hw % 256 := rfl

/-- While the button stays pressed and no edge is latched, nothing acts. -/
theorem action_count_held (drv : Driver) (ps : List Poll) (s : Globals)
    (hall : ∀ hw, Poll.tick hw ∈ ps → drv.PMOD_ENC_Button_Read (hw % 256) = true)
    (hb : s.pmod_enc_btn_pressed = 0) (hl : drv.PMOD_ENC_Button_Read s.last_state = true) :
    action_count drv ps s = 0 := by
  induction ps generalizing s with
  | nil => rfl
  | cons p ps ih =>
    have hall1 : ∀ hw, Poll.tick hw ∈ ps → drv.PMOD_ENC_Button_Read (hw % 256) = true :=
      fun hw hmem => hall hw (List.mem_cons_of_mem _ hmem)
    cases p with
    | tick hw =>
      simp only [action_count]
      apply ih _ hall1
      · rw [task_flag, hl, hb]
        simp
      · rw [task_last_state]
        exact hall hw (List.mem_cons_self _ _)
    | handler =>
      have hne : s.pmod_enc_btn_pressed ≠ 1 := by rw [hb]; decide
      simp only [action_count, process_idle s hne]
      rw [process_idle_not_acted s s hne (process_idle s hne), ih s hall1 hb hl]
      rfl

/-- With one edge latched and the button still pressed, at most one call acts. -/
theorem action_count_latched (drv : Driver) (ps : List Poll) (s : Globals)
    (hall : ∀ hw, Poll.tick hw ∈ ps → drv.PMOD_ENC_Button_Read (hw % 256) = true)
    (hb : s.pmod_enc_btn_pressed = 1) (hl : drv.PMOD_ENC_Button_Read s.last_state = true) :
    action_count drv ps s ≤ 1 := by
  induction ps generalizing s with
  | nil => exact Nat.zero_le 1
  | cons p ps ih =>
    have hall1 : ∀ hw, Poll.tick hw ∈ ps → drv.PMOD_ENC_Button_Read (hw % 256) = true :=
      fun hw hmem => hall hw (List.mem_cons_of_mem _ hmem)
    cases p with
    | tick hw =>
      simp only [action_count]
      apply ih _ hall1
      · rw [task_flag, hl, hb]
        simp
      · rw [task_last_state]
        exact hall hw (List.mem_cons_self _ _)
    | handler =>
      simp only [action_count]
      cases hq : Process_Main_Menu_Selection s with
      | none => exact Nat.le_refl 1
      | some s1 =>
        obtain ⟨_, f2, _, _, _, f6, _, _⟩ := process_frame s s1 hq
        have h0 := action_count_held drv ps s1 hall1 (f6 hb) (by rw [f2]; exact hl)
        simp only [h0]
        split_ifs <;> omega


/-- C4: from a state with the edge flag clear and the previous sample not
pressed, whatever the interleaving of sampler ticks that all read the button
pressed with calls of the handler, at most one call of the handler acts
(moves the cursor, writes the buffer or calls a driver). -/
theorem C4_held_button_acts_at_most_once (drv : Driver) (ps : List Poll) (s : Globals)
    (hall : ∀ hw, Poll.tick hw ∈ ps → drv.PMOD_ENC_Button_Read (hw % 256) = true)
    (hb : s.pmod_enc_btn_pressed = 0)
    (hl : drv.PMOD_ENC_Button_Read s.last_state = false) :
    action_count drv ps s ≤ 1 := by
  induction ps generalizing s with
  | nil => exact Nat.zero_le 1
  | cons p ps ih =>
    have hall1 : ∀ hw, Poll.tick hw ∈ ps → drv.PMOD_ENC_Button_Read (hw % 256) = true :=
      fun hw hmem => hall hw (List.mem_cons_of_mem _ hmem)
    cases p with
    | tick hw =>
      have hp := hall hw (List.mem_cons_self _ _)
      simp only [action_count]
      apply action_count_latched drv ps _ hall1
      · rw [task_flag, hl, hp]
        rfl
      · rw [task_last_state]
        exact hp
    | handler =>
      have hne : s.pmod_enc_btn_pressed ≠ 1 := by rw [hb]; decide
      simp only [action_count, process_idle s hne]
      rw [process_idle_not_acted s s hne (process_idle s hne)]
      have := ih s hall1 hb hl
      simpa using this

/-- Witness for C4: the held schedule from the entry state; exactly one call acts. -/
theorem C4_held_button_acts_at_most_once_witness :
    action_count demo_driver held_schedule entry_state ≤ 1 ∧
    action_count demo_driver held_schedule entry_state = 1 :=
  ⟨C4_held_button_acts_at_most_once demo_driver held_schedule entry_state
    (by
      intro hw hmem
      simp only [held_schedule, List.mem_cons, Poll.tick.injEq, List.mem_singleton,
        List.mem_nil_iff, or_false, false_or, reduceCtorEq, or_self] at hmem
      subst hmem
      decide) rfl rfl, by decide⟩


/-! ## Redraws -/

theorem main_redraw_trace (s : Globals)
    (hd : s.prev_main_menu_counter ≠ s.main_menu_counter) :
    ∃ rest, (main_redraw s).trace = s.trace ++ Out.EduBase_LCD_Clear_Display :: rest := by
  by_cases hm : s.main_menu_counter = 0
  · rw [main_redraw_menu0 s hm hd]
    exact ⟨_, rfl⟩
  · refine ⟨[], ?_⟩
    simp only [main_redraw, Display_Main_Menu, if_pos hd, if_neg hm]

theorem main_redraw_prev (s : Globals) :
    (main_redraw s).prev_main_menu_counter = (main_redraw s).main_menu_counter := by
  by_cases hd : s.prev_main_menu_counter = s.main_menu_counter
  · rw [main_redraw_same s hd]
    exact hd
  · simp only [main_redraw, if_pos hd]

theorem main_redraw_menu_counter (s : Globals) :
    (main_redraw s).main_menu_counter = s.main_menu_counter := by
  by_cases hd : s.prev_main_menu_counter = s.main_menu_counter
  · rw [main_redraw_same s hd]
  · by_cases hm : s.main_menu_counter = 0
    · rw [main_redraw_menu0 s hm hd]
    · simp only [main_redraw, Display_Main_Menu, if_pos hd, if_neg hm]

theorem trace_grew (t rest : List Out) (o : Out) : t ++ o :: rest ≠ t := by
  intro h
  have := congrArg List.length h
  simp at this

/-- Any event other than the main thread executing lines 113-118 keeps the
drawn selection and is not counted as a redraw. -/
theorem step_not_redraw (drv : Driver) (e : Event) (m m1 : Machine)
    (h : step drv e m = some m1)
    (hn : ∀ hw, e = Event.main hw → m.pc ≠ Phase.redraw) :
    m1.g.prev_main_menu_counter = m.g.prev_main_menu_counter ∧
    ¬ (m.pc = Phase.redraw ∧ m1.g.trace ≠ m.g.trace) := by
  cases e with
  | tick hw =>
    simp only [step, Option.some.injEq] at h
    subst h
    exact ⟨rfl, fun hc => hc.2 rfl⟩
  | main hw =>
    have hpc := hn hw rfl
    refine ⟨?_, fun hc => hpc hc.1⟩
    simp only [step, main_step] at h
    cases hq : m.pc with
    | startup =>
      rw [hq] at h
      simp only [Option.some.injEq] at h
      subst h
      rfl
    | redraw => exact absurd hq hpc
    | select =>
      rw [hq] at h
      cases hp : Process_Main_Menu_Selection m.g with
      | none => rw [hp] at h; exact absurd h (by simp)
      | some g1 =>
        rw [hp] at h
        simp only [Option.some.injEq] at h
        subst h
        exact (process_frame m.g g1 hp).2.2.2.1
    | refresh =>
      rw [hq] at h
      simp only [Option.some.injEq] at h
      subst h
      obtain ⟨t, e⟩ := main_refresh_frame m.g
      simp only [e]
    | sleep =>
      rw [hq] at h
      simp only [Option.some.injEq] at h
      subst h
      rfl

theorem step_redraw (drv : Driver) (hw : Nat) (m : Machine) (hpc : m.pc = Phase.redraw) :
    step drv (Event.main hw) m = some ⟨main_redraw m.g, Phase.select⟩ := by
  simp only [step, main_step, hpc]

theorem visited_head (drv : Driver) (es : List Event) (m : Machine) :
    m ∈ visited drv es m := by
  cases es with
  | nil => simp [visited]
  | cons e es =>
    simp only [visited]
    cases step drv e m <;> simp

theorem visited_tail (drv : Driver) (e : Event) (es : List Event) (m m1 m2 : Machine)
    (h : step drv e m = some m1) (hm : m2 ∈ visited drv es m1) :
    m2 ∈ visited drv (e :: es) m := by
  simp only [visited, h]
  exact List.mem_cons_of_mem _ hm

/-- Once the drawn selection equals the selection, and as long as the
selection stays the same, no redraw happens. -/
theorem redraw_count_settled (drv : Driver) (es : List Event) (m : Machine)
    (hc : ∀ m1 ∈ visited drv es m, m1.g.main_menu_counter = m.g.main_menu_counter)
    (hs : m.g.prev_main_menu_counter = m.g.main_menu_counter) :
    redraw_count drv es m = 0 := by
  induction es generalizing m with
  | nil => rfl
  | cons e es ih =>
    simp only [redraw_count]
    cases hq : step drv e m with
    | none => rfl
    | some m1 =>
      have hm1 : m1.g.main_menu_counter = m.g.main_menu_counter :=
        hc m1 (visited_tail drv e es m m1 m1 hq (visited_head drv es m1))
      have hc1 : ∀ m2 ∈ visited drv es m1,
          m2.g.main_menu_counter = m1.g.main_menu_counter := by
        intro m2 h2
        rw [hm1]
        exact hc m2 (visited_tail drv e es m m1 m2 hq h2)
      by_cases hr : ∃ hw, e = Event.main hw ∧ m.pc = Phase.redraw
      · obtain ⟨hw, he, hpc⟩ := hr
        subst he
        rw [step_redraw drv hw m hpc] at hq
        simp only [Option.some.injEq] at hq
        subst hq
        have hsame := main_redraw_same m.g hs
        have h0 := ih ⟨main_redraw m.g, Phase.select⟩ hc1 (main_redraw_prev m.g)
        show (if m.pc = Phase.redraw ∧ (main_redraw m.g).trace ≠ m.g.trace then 1 else 0)
          + redraw_count drv es ⟨main_redraw m.g, Phase.select⟩ = 0
        rw [h0, hsame]
        simp
      · have hn : ∀ hw, e = Event.main hw → m.pc ≠ Phase.redraw :=
          fun hw he hpc => hr ⟨hw, he, hpc⟩
        obtain ⟨hp, hi⟩ := step_not_redraw drv e m m1 hq hn
        have h0 := ih m1 hc1 (by rw [hp, hm1]; exact hs)
        simp only [h0, if_neg hi]

/-- As long as the selection stays the same, at most one redraw happens. -/
theorem redraw_count_le_one (drv : Driver) (es : List Event) (m : Machine)
    (hc : ∀ m1 ∈ visited drv es m, m1.g.main_menu_counter = m.g.main_menu_counter) :
    redraw_count drv es m ≤ 1 := by
  induction es generalizing m with
  | nil => exact Nat.zero_le 1
  | cons e es ih =>
    simp only [redraw_count]
    cases hq : step drv e m with
    | none => exact Nat.zero_le 1
    | some m1 =>
      have hm1 : m1.g.main_menu_counter = m.g.main_menu_counter :=
        hc m1 (visited_tail drv e es m m1 m1 hq (visited_head drv es m1))
      have hc1 : ∀ m2 ∈ visited drv es m1,
          m2.g.main_menu_counter = m1.g.main_menu_counter := by
        intro m2 h2
        rw [hm1]
        exact hc m2 (visited_tail drv e es m m1 m2 hq h2)
      by_cases hr : ∃ hw, e = Event.main hw ∧ m.pc = Phase.redraw
      · obtain ⟨hw, he, hpc⟩ := hr
        subst he
        rw [step_redraw drv hw m hpc] at hq
        simp only [Option.some.injEq] at hq
        subst hq
        have h0 := redraw_count_settled drv es ⟨main_redraw m.g, Phase.select⟩ hc1
          (main_redraw_prev m.g)
        simp only [h0]
        split_ifs <;> omega
      · have hn : ∀ hw, e = Event.main hw → m.pc ≠ Phase.redraw :=
          fun hw he hpc => hr ⟨hw, he, hpc⟩
        obtain ⟨_, hi⟩ := step_not_redraw drv e m m1 hq hn
        have h0 := ih m1 hc1
        simp only [if_neg hi]
        omega


theorem inv_visited (drv : Driver) (es : List Event) (m : Machine) (hi : Inv m) :
    ∀ m1 ∈ visited drv es m, Inv m1 := by
  induction es generalizing m with
  | nil =>
    intro m1 h1
    simp only [visited, List.mem_singleton] at h1
    subst h1
    exact hi
  | cons e es ih =>
    intro m1 h1
    simp only [visited] at h1
    cases hq : step drv e m with
    | none =>
      rw [hq] at h1
      simp only [List.mem_singleton] at h1
      subst h1
      exact hi
    | some m2 =>
      rw [hq] at h1
      simp only [List.mem_cons] at h1
      rcases h1 with h1 | h1
      · subst h1
        exact hi
      · exact ih m2 (inv_step drv e m m2 hi hq) m1 h1

theorem inv_visited_menu (drv : Driver) (es : List Event) (m : Machine) (hi : Inv m) :
    ∀ m1 ∈ visited drv es m, m1.g.main_menu_counter = m.g.main_menu_counter := by
  intro m1 h1
  rw [(inv_visited drv es m hi m1 h1).1, hi.1]

/-- Before the first redraw has run, the run contains exactly one redraw as
soon as the main thread has got past it. -/
theorem redraw_count_first (drv : Driver) (es : List Event) (m : Machine) (hi : Inv m)
    (hd : m.g.prev_main_menu_counter ≠ m.g.main_menu_counter) :
    (m.pc = Phase.startup → 2 ≤ main_steps es → redraw_count drv es m = 1) ∧
    (m.pc = Phase.redraw → 1 ≤ main_steps es → redraw_count drv es m = 1) := by
  induction es generalizing m with
  | nil =>
    constructor <;> intro _ h <;> simp [main_steps] at h
  | cons e es ih =>
    obtain ⟨m1, hq⟩ := step_total drv e m hi
    have hi1 := inv_step drv e m m1 hi hq
    cases e with
    | tick hw =>
      have hn : ∀ hw1, Event.tick hw = Event.main hw1 → m.pc ≠ Phase.redraw :=
        fun hw1 he => by cases he
      obtain ⟨hp, hx⟩ := step_not_redraw drv _ m m1 hq hn
      have hpc : m1.pc = m.pc := by
        simp only [step, Option.some.injEq] at hq
        subst hq
        rfl
      have hd1 : m1.g.prev_main_menu_counter ≠ m1.g.main_menu_counter := by
        rw [hp, hi1.1, ← hi.1]
        exact hd
      have h0 := ih m1 hi1 hd1
      simp only [redraw_count, hq, if_neg hx, main_steps, Nat.zero_add]
      rw [hpc] at h0
      exact h0
    | main hw =>
      constructor
      · intro hpc hms
        have hn : ∀ hw1, Event.main hw = Event.main hw1 → m.pc ≠ Phase.redraw :=
          fun hw1 _ hc => by rw [hpc] at hc; cases hc
        obtain ⟨hp, hx⟩ := step_not_redraw drv _ m m1 hq hn
        have hpc1 : m1.pc = Phase.redraw := by
          simp only [step, main_step, hpc, Option.some.injEq] at hq
          subst hq
          rfl
        have hd1 : m1.g.prev_main_menu_counter ≠ m1.g.main_menu_counter := by
          rw [hp, hi1.1, ← hi.1]
          exact hd
        have h0 := (ih m1 hi1 hd1).2 hpc1 (by simp only [main_steps] at hms; omega)
        simp only [redraw_count, hq, if_neg hx, Nat.zero_add]
        exact h0
      · intro hpc _
        rw [step_redraw drv hw m hpc] at hq
        simp only [Option.some.injEq] at hq
        subst hq
        obtain ⟨rest, hr⟩ := main_redraw_trace m.g hd
        have hx : m.pc = Phase.redraw ∧ (main_redraw m.g).trace ≠ m.g.trace :=
          ⟨hpc, by rw [hr]; exact trace_grew _ _ _⟩
        have h0 := redraw_count_settled drv es ⟨main_redraw m.g, Phase.select⟩
          (inv_visited_menu drv es _ hi1) (main_redraw_prev m.g)
        simp only [redraw_count, step_redraw drv hw m hpc]
        rw [h0]
        show (if m.pc = Phase.redraw ∧ (main_redraw m.g).trace ≠ m.g.trace then 1 else 0) + 0 = 1
        rw [if_pos hx]

/-- C10: lines 113-118 redraw (clear the display, then draw the menu) exactly
when the drawn selection differs from the selection, and leave the two equal;
over events during which the selection stays the same there is at most one
redraw, none once the two are equal, and a redraw can only be the one of the
first execution of lines 113-118; from boot, where the drawn selection is 0xFF, every run
has at most one redraw and exactly one as soon as the first iteration has
executed lines 113-118. -/
theorem C10_redraw_only_on_change (drv : Driver) (s : Globals) (m : Machine)
    (es : List Event) :
    ((s.prev_main_menu_counter ≠ s.main_menu_counter ↔
        ∃ rest, (main_redraw s).trace = s.trace ++ Out.EduBase_LCD_Clear_Display :: rest) ∧
      (s.prev_main_menu_counter ≠ s.main_menu_counter →
        main_redraw s =
          { Display_Main_Menu s.main_menu_counter
              { s with trace := s.trace ++ [Out.EduBase_LCD_Clear_Display] } with
            prev_main_menu_counter := s.main_menu_counter }) ∧
      (s.prev_main_menu_counter = s.main_menu_counter → main_redraw s = s) ∧
      (main_redraw s).prev_main_menu_counter = (main_redraw s).main_menu_counter) ∧
    ((∀ m1 ∈ visited drv es m, m1.g.main_menu_counter = m.g.main_menu_counter) →
      redraw_count drv es m ≤ 1 ∧
      (m.g.prev_main_menu_counter = m.g.main_menu_counter → redraw_count drv es m = 0) ∧
      (∀ hw rest, m.pc = Phase.redraw → es = Event.main hw :: rest →
        redraw_count drv es m =
          if m.g.prev_main_menu_counter ≠ m.g.main_menu_counter then 1 else 0)) ∧
    (redraw_count drv es Machine.boot ≤ 1 ∧
      (2 ≤ main_steps es → redraw_count drv es Machine.boot = 1)) := by
  refine ⟨⟨⟨main_redraw_trace s, ?_⟩, ?_, main_redraw_same s, main_redraw_prev s⟩, ?_, ?_⟩
  · rintro ⟨rest, hr⟩ heq
    rw [main_redraw_same s heq] at hr
    exact trace_grew _ _ _ hr.symm
  · intro hd
    have e : (Display_Main_Menu s.main_menu_counter
        { s with trace := s.trace ++ [Out.EduBase_LCD_Clear_Display] }).main_menu_counter
        = s.main_menu_counter := by
      unfold Display_Main_Menu
      split_ifs <;> rfl
    simp only [main_redraw, if_pos hd, e]
  · intro hc
    refine ⟨redraw_count_le_one drv es m hc, redraw_count_settled drv es m hc, ?_⟩
    intro hw rest hpc he
    subst he
    have hq := step_redraw drv hw m hpc
    have hm1 : (main_redraw m.g).main_menu_counter = m.g.main_menu_counter :=
      main_redraw_menu_counter m.g
    have hc1 : ∀ m2 ∈ visited drv rest ⟨main_redraw m.g, Phase.select⟩,
        m2.g.main_menu_counter = (main_redraw m.g).main_menu_counter := by
      intro m2 h2
      rw [hm1]
      exact hc m2 (visited_tail drv _ rest m _ m2 hq h2)
    have h0 := redraw_count_settled drv rest ⟨main_redraw m.g, Phase.select⟩ hc1
      (main_redraw_prev m.g)
    simp only [redraw_count, hq]
    rw [h0]
    show (if m.pc = Phase.redraw ∧ (main_redraw m.g).trace ≠ m.g.trace then 1 else 0) + 0 = _
    by_cases hd : m.g.prev_main_menu_counter = m.g.main_menu_counter
    · rw [main_redraw_same m.g hd]
      simp [hd]
    · obtain ⟨r, hr⟩ := main_redraw_trace m.g hd
      have hx : m.pc = Phase.redraw ∧ (main_redraw m.g).trace ≠ m.g.trace :=
        ⟨hpc, by rw [hr]; exact trace_grew _ _ _⟩
      rw [if_pos hx]
      simp [hd]
  · refine ⟨redraw_count_le_one drv es _ (inv_visited_menu drv es _ inv_boot), ?_⟩
    exact (redraw_count_first drv es Machine.boot inv_boot (by decide)).1 rfl

/-- Witness for C10: over two iterations from boot there is exactly one redraw. -/
theorem C10_redraw_only_on_change_witness :
    2 ≤ main_steps two_iterations ∧
    redraw_count demo_driver two_iterations Machine.boot = 1 :=
  ⟨by decide, (C10_redraw_only_on_change demo_driver Globals.static_init Machine.boot
    two_iterations).2.2.2 (by decide)⟩

/-! ## Frame and effect of the handler -/

theorem commit_digit_zero (s : Globals) (h0 : s.position = 0) : commit_digit s = none := by
  simp only [commit_digit, h0, store_entered_code_zero, Nat.zero_le, if_true]

theorem completes_attempt_iff (s : Globals) :
    completes_attempt s = true ↔
      s.pmod_enc_btn_pressed = 1 ∧ s.main_menu_counter = 0 ∧
        (s.position = 4 ∨ s.position = 5) := by
  rcases Nat.lt_or_ge s.position 1 with p0 | p1
  · have h0 : s.position = 0 := by omega
    have hc := commit_digit_zero { s with pmod_enc_btn_pressed := 0 } h0
    simp only [completes_attempt, hc]
    simp
    omega
  · rcases Nat.lt_or_ge 4 s.position with p5 | p4
    · have hn : ¬ s.position ≤ 4 := by omega
      have hc : commit_digit { s with pmod_enc_btn_pressed := 0 }
          = some { s with pmod_enc_btn_pressed := 0 } := by
        simp only [commit_digit, hn, if_false]
      simp only [completes_attempt, hc]
      simp
      omega
    · rw [show completes_attempt s = (s.pmod_enc_btn_pressed == 1 && s.main_menu_counter == 0 &&
          (match commit_digit { s with pmod_enc_btn_pressed := 0 } with
           | some c => c.position == 5
           | none => false)) from rfl,
        commit_digit_in_range { s with pmod_enc_btn_pressed := 0 } p1 p4]
      simp
      omega

theorem process_none_iff (s : Globals) :
    Process_Main_Menu_Selection s = none ↔
      s.pmod_enc_btn_pressed = 1 ∧ s.main_menu_counter = 0 ∧ s.position = 0 := by
  constructor
  · intro h
    by_cases hb : s.pmod_enc_btn_pressed = 1
    · by_cases hm : s.main_menu_counter = 0
      · refine ⟨hb, hm, ?_⟩
        by_contra hp
        obtain ⟨s1, h1⟩ := process_returns s (by omega)
        rw [h] at h1
        cases h1
      · rw [process_other_menu s hb hm] at h
        cases h
    · rw [process_idle s hb] at h
      cases h
  · rintro ⟨hb, hm, hp⟩
    exact process_fault s hb hm hp


theorem completes_attempt_false (s : Globals)
    (h : ¬ (s.pmod_enc_btn_pressed = 1 ∧ s.main_menu_counter = 0 ∧
      (s.position = 4 ∨ s.position = 5))) : completes_attempt s = false := by
  rw [← Bool.not_eq_true]
  exact fun hc => h ((completes_attempt_iff s).mp hc)

/-- C11: a returning call of the handler leaves `main_menu_counter`, `state`
and `last_state` as they were; it leaves `password_counter` as it was unless
the call completes an attempt (it runs the evaluation, which from a cursor in
1..4 happens exactly when the call commits the fourth digit), and then sets it
to 0; the edge flag is cleared when it was set and untouched otherwise.  The
call returns unless an edge is latched on menu item 0 with the cursor at 0. -/
theorem C11_handler_writes_to_sampler_fields (s : Globals) :
    (Process_Main_Menu_Selection s = none ↔
      s.pmod_enc_btn_pressed = 1 ∧ s.main_menu_counter = 0 ∧ s.position = 0) ∧
    (1 ≤ s.position → s.position ≤ 4 →
      (completes_attempt s = true ↔
        s.pmod_enc_btn_pressed = 1 ∧ s.main_menu_counter = 0 ∧ s.position = 4)) ∧
    ∀ s1, Process_Main_Menu_Selection s = some s1 →
      s1.main_menu_counter = s.main_menu_counter ∧
      s1.state = s.state ∧
      s1.last_state = s.last_state ∧
      s1.password_counter = (if completes_attempt s = true then 0 else s.password_counter) ∧
      s1.pmod_enc_btn_pressed =
        (if s.pmod_enc_btn_pressed = 1 then 0 else s.pmod_enc_btn_pressed) := by
  refine ⟨process_none_iff s, ?_, ?_⟩
  · intro h1 h4
    rw [completes_attempt_iff]
    constructor
    · rintro ⟨hb, hm, hp⟩
      exact ⟨hb, hm, by omega⟩
    · rintro ⟨hb, hm, hp⟩
      exact ⟨hb, hm, Or.inl hp⟩
  · intro s1 h
    by_cases hb : s.pmod_enc_btn_pressed = 1
    · by_cases hm : s.main_menu_counter = 0
      · rcases Nat.lt_or_ge s.position 1 with p0 | p1
        · rw [process_fault s hb hm (by omega)] at h
          cases h
        · rcases Nat.lt_or_ge s.position 4 with p3 | p4
          · have hc := completes_attempt_false s (by omega)
            rw [process_commit s hb hm p1 (by omega)] at h
            cases h
            simp [hc, hb]
          · rcases Nat.lt_or_ge s.position 5 with q4 | q5
            · have hc := (completes_attempt_iff s).mpr ⟨hb, hm, Or.inl (by omega)⟩
              rw [process_complete s hb hm (by omega)] at h
              cases h
              simp [hc, hb, evaluate_entry]
            · rcases Nat.lt_or_ge s.position 6 with q5' | q6
              · have hc := (completes_attempt_iff s).mpr ⟨hb, hm, Or.inr (by omega)⟩
                rw [process_at_five s hb hm (by omega)] at h
                cases h
                simp [hc, hb, evaluate_entry]
              · have hc := completes_attempt_false s (by omega)
                rw [process_beyond s hb hm (by omega)] at h
                cases h
                simp [hc, hb]
      · have hc := completes_attempt_false s (fun hx => hm hx.2.1)
        rw [process_other_menu s hb hm] at h
        cases h
        simp [hc, hb]
    · have hc := completes_attempt_false s (fun hx => hb hx.1)
      rw [process_idle s hb] at h
      cases h
      simp [hc, hb]

/-- Witness for C11: the call that commits the fourth digit, with the digit
counter at 7. -/
theorem C11_handler_writes_to_sampler_fields_witness :
    ∃ s1, Process_Main_Menu_Selection (latched 7 { entry_state with position := 4 }) = some s1 ∧
      s1.main_menu_counter = 0 ∧ s1.password_counter = 0 ∧ s1.pmod_enc_btn_pressed = 0 := by
  obtain ⟨s1, h1⟩ := process_returns (latched 7 { entry_state with position := 4 })
    (by decide)
  have h := (C11_handler_writes_to_sampler_fields
    (latched 7 { entry_state with position := 4 })).2.2 s1 h1
  exact ⟨s1, h1, h.1, h.2.2.2.1, h.2.2.2.2⟩


/-- C12: a run of the sampler leaves the cursor, the entry buffer and the
drawn selection as they were and calls no driver of the display, the
indicator or the delay: nothing is added to the trace. -/
theorem C12_sampler_touches_only_sampler_fields (drv : Driver) (hw : Nat) (s : Globals) :
    (PMOD_ENC_Task drv hw s).position = s.position ∧
    (PMOD_ENC_Task drv hw s).entered_code = s.entered_code ∧
    (PMOD_ENC_Task drv hw s).prev_main_menu_counter = s.prev_main_menu_counter ∧
    (PMOD_ENC_Task drv hw s).trace = s.trace :=
  ⟨rfl, rfl, rfl, rfl⟩

theorem indicator_calls_append (t u : List Out) :
    indicator_calls (t ++ u) = indicator_calls t ++ indicator_calls u := by
  simp [indicator_calls]

/-- The indicator and delay calls of the evaluation. -/
theorem indicator_calls_evaluate (s : Globals) :
    ∃ new, (evaluate_entry s).trace = s.trace ++ new ∧
      indicator_calls new =
        [ Out.RGB_LED_Output
            (if check_password s.entered_code ≠ 0 then Color.RGB_LED_GREEN
              else Color.RGB_LED_RED),
          Out.SysTick_Delay1ms 3000,
          Out.RGB_LED_Output Color.RGB_LED_OFF ] := by
  by_cases hc : check_password s.entered_code = 0
  · refine ⟨_, by simp only [evaluate_entry, List.append_assoc]; rfl, ?_⟩
    simp [hc, indicator_calls]
  · refine ⟨_, by simp only [evaluate_entry, List.append_assoc]; rfl, ?_⟩
    simp [hc, indicator_calls]

/-- The indicator and delay calls of a returning call of the handler, the
colour given by the flag the comparison loop computes. -/
theorem handler_indicator_calls (s s1 : Globals)
    (h : Process_Main_Menu_Selection s = some s1) :
    ∃ new, s1.trace = s.trace ++ new ∧
      (completes_attempt s = true →
        ∃ c, commit_digit { s with pmod_enc_btn_pressed := 0 } = some c ∧
          indicator_calls new =
            [ Out.RGB_LED_Output
                (if check_password c.entered_code ≠ 0 then Color.RGB_LED_GREEN
                  else Color.RGB_LED_RED),
              Out.SysTick_Delay1ms 3000,
              Out.RGB_LED_Output Color.RGB_LED_OFF ]) ∧
      (completes_attempt s = false → indicator_calls new = []) ∧
      (1 ≤ s.position → s.position ≤ 4 →
        (completes_attempt s = true ↔
          s.pmod_enc_btn_pressed = 1 ∧ s.main_menu_counter = 0 ∧ s.position = 4)) := by
  have hlink : 1 ≤ s.position → s.position ≤ 4 →
      (completes_attempt s = true ↔
        s.pmod_enc_btn_pressed = 1 ∧ s.main_menu_counter = 0 ∧ s.position = 4) := by
    intro h1 h4
    rw [completes_attempt_iff]
    constructor
    · rintro ⟨hb, hm, hp⟩
      exact ⟨hb, hm, by omega⟩
    · rintro ⟨hb, hm, hp⟩
      exact ⟨hb, hm, Or.inl hp⟩
  by_cases hb : s.pmod_enc_btn_pressed = 1
  · by_cases hm : s.main_menu_counter = 0
    · rcases Nat.lt_or_ge s.position 1 with p0 | p1
      · rw [process_fault s hb hm (by omega)] at h
        cases h
      · rcases Nat.lt_or_ge s.position 4 with p3 | p4
        · have hc := completes_attempt_false s (by omega)
          rw [process_commit s hb hm p1 (by omega)] at h
          cases h
          exact ⟨_, rfl, by simp [hc], fun _ => by simp [indicator_calls], hlink⟩
        · rcases Nat.lt_or_ge s.position 5 with q4 | q5
          · have hp4 : s.position = 4 := by omega
            have hcd := commit_digit_in_range { s with pmod_enc_btn_pressed := 0 } p1
              (by show s.position ≤ 4; omega)
            have hc := (completes_attempt_iff s).mpr ⟨hb, hm, Or.inl hp4⟩
            rw [process_complete s hb hm hp4] at h
            cases h
            obtain ⟨new, e1, e2⟩ := indicator_calls_evaluate
              { s with
                pmod_enc_btn_pressed := 0
                entered_code := Function.update s.entered_code 3 (to_uint8 s.password_counter)
                trace := s.trace ++
                  [ Out.EduBase_LCD_Set_Cursor 4 1,
                    Out.EduBase_LCD_Send_Data (char0 + s.password_counter) ]
                position := 5 }
            refine ⟨[ Out.EduBase_LCD_Set_Cursor 4 1,
                Out.EduBase_LCD_Send_Data (char0 + s.password_counter) ] ++ new,
              by rw [e1, List.append_assoc], ?_, by simp [hc], hlink⟩
            intro _
            refine ⟨_, hcd, ?_⟩
            rw [indicator_calls_append, e2]
            simp [indicator_calls, hp4]
          · rcases Nat.lt_or_ge s.position 6 with q5' | q6
            · have hp5 : s.position = 5 := by omega
              have hn : ¬ s.position ≤ 4 := by omega
              have hcd : commit_digit { s with pmod_enc_btn_pressed := 0 }
                  = some { s with pmod_enc_btn_pressed := 0 } := by
                simp only [commit_digit, hn, if_false]
              have hc := (completes_attempt_iff s).mpr ⟨hb, hm, Or.inr hp5⟩
              rw [process_at_five s hb hm hp5] at h
              cases h
              obtain ⟨new, e1, e2⟩ := indicator_calls_evaluate
                { s with pmod_enc_btn_pressed := 0 }
              exact ⟨new, e1, fun _ => ⟨_, hcd, e2⟩, by simp [hc], hlink⟩
            · have hc := completes_attempt_false s (by omega)
              rw [process_beyond s hb hm (by omega)] at h
              cases h
              exact ⟨[], by simp, by simp [hc], fun _ => rfl, hlink⟩
    · have hc := completes_attempt_false s (fun hx => hm hx.2.1)
      rw [process_other_menu s hb hm] at h
      cases h
      exact ⟨[], by simp, by simp [hc], fun _ => rfl, hlink⟩
  · have hc := completes_attempt_false s (fun hx => hb hx.1)
    rw [process_idle s hb] at h
    cases h
    exact ⟨[], by simp, by simp [hc], fun _ => rfl, hlink⟩

/-- The comparison loop leaves the flag set exactly when every slot of the
buffer equals the slot of the reference code. -/
theorem check_password_ne_zero_iff_match (code : Fin 4 → Nat) :
    check_password code ≠ 0 ↔ ∀ i, code i = correct_code i := by
  rw [check_password_ne_zero_iff]
  constructor
  · rintro ⟨h0, h1, h2, h3⟩ i
    fin_cases i
    · exact h0
    · exact h1
    · exact h2
    · exact h3
  · intro h
    exact ⟨h 0, h 1, h 2, h 3⟩

/-- C13: a call of the handler that completes an attempt issues exactly these
indicator and delay calls, in this order: `RGB_LED_Output` with green when
every slot of the buffer equals the reference code and with red when some slot
differs, a delay of 3000 ms, `RGB_LED_Output` with off; a call that does not
complete an attempt issues none. -/
theorem C13_indicator_sequence (s s1 : Globals)
    (h : Process_Main_Menu_Selection s = some s1) :
    ∃ new, s1.trace = s.trace ++ new ∧
      (completes_attempt s = true →
        ∃ c, commit_digit { s with pmod_enc_btn_pressed := 0 } = some c ∧
          ((∀ i, c.entered_code i = correct_code i) →
            indicator_calls new =
              [ Out.RGB_LED_Output Color.RGB_LED_GREEN,
                Out.SysTick_Delay1ms 3000,
                Out.RGB_LED_Output Color.RGB_LED_OFF ]) ∧
          (¬ (∀ i, c.entered_code i = correct_code i) →
            indicator_calls new =
              [ Out.RGB_LED_Output Color.RGB_LED_RED,
                Out.SysTick_Delay1ms 3000,
                Out.RGB_LED_Output Color.RGB_LED_OFF ])) ∧
      (completes_attempt s = false → indicator_calls new = []) ∧
      (1 ≤ s.position → s.position ≤ 4 →
        (completes_attempt s = true ↔
          s.pmod_enc_btn_pressed = 1 ∧ s.main_menu_counter = 0 ∧ s.position = 4)) := by
  obtain ⟨new, e, hc, hn, hl⟩ := handler_indicator_calls s s1 h
  refine ⟨new, e, ?_, hn, hl⟩
  intro ht
  obtain ⟨c, hcd, hi⟩ := hc ht
  refine ⟨c, hcd, ?_, ?_⟩
  · intro hm
    rw [hi, if_pos ((check_password_ne_zero_iff_match c.entered_code).mpr hm)]
  · intro hm
    rw [hi, if_neg (fun hk => hm ((check_password_ne_zero_iff_match c.entered_code).mp hk))]

/-- Witness for C13: committing the fourth digit of the reference code shows
green, committing a wrong fourth digit shows red. -/
theorem C13_indicator_sequence_witness :
    (∃ s1 new, Process_Main_Menu_Selection fourth_digit_state = some s1 ∧
      s1.trace = fourth_digit_state.trace ++ new ∧
      indicator_calls new =
        [ Out.RGB_LED_Output Color.RGB_LED_GREEN,
          Out.SysTick_Delay1ms 3000,
          Out.RGB_LED_Output Color.RGB_LED_OFF ]) ∧
    (∃ s1 new, Process_Main_Menu_Selection wrong_fourth_digit_state = some s1 ∧
      s1.trace = wrong_fourth_digit_state.trace ++ new ∧
      indicator_calls new =
        [ Out.RGB_LED_Output Color.RGB_LED_RED,
          Out.SysTick_Delay1ms 3000,
          Out.RGB_LED_Output Color.RGB_LED_OFF ]) := by
  constructor
  · obtain ⟨s1, h1⟩ := process_returns fourth_digit_state (by decide)
    obtain ⟨new, e, hc, _, _⟩ := C13_indicator_sequence fourth_digit_state s1 h1
    obtain ⟨c, hcd, hg, _⟩ := hc (by decide)
    have hcd1 := commit_digit_in_range { fourth_digit_state with pmod_enc_btn_pressed := 0 }
      (by decide) (by decide)
    rw [hcd1] at hcd
    cases hcd
    exact ⟨s1, new, h1, e, hg (by decide)⟩
  · obtain ⟨s1, h1⟩ := process_returns wrong_fourth_digit_state (by decide)
    obtain ⟨new, e, hc, _, _⟩ := C13_indicator_sequence wrong_fourth_digit_state s1 h1
    obtain ⟨c, hcd, _, hr⟩ := hc (by decide)
    have hcd1 := commit_digit_in_range
      { wrong_fourth_digit_state with pmod_enc_btn_pressed := 0 } (by decide) (by decide)
    rw [hcd1] at hcd
    cases hcd
    exact ⟨s1, new, h1, e, hr (by decide)⟩

/-- C14: with an edge latched and the cursor beyond 5, the handler only clears
the edge flag: the buffer, the cursor, the counters and the trace are as they
were, so no digit is written and no evaluation runs. -/
theorem C14_cursor_beyond_completion (s : Globals) (hb : s.pmod_enc_btn_pressed = 1)
    (h6 : 5 < s.position) :
    Process_Main_Menu_Selection s = some { s with pmod_enc_btn_pressed := 0 } ∧
    completes_attempt s = false := by
  refine ⟨?_, completes_attempt_false s (by omega)⟩
  by_cases hm : s.main_menu_counter = 0
  · exact process_beyond s hb hm h6
  · exact process_other_menu s hb hm

/-- Witness for C14: the cursor at 6. -/
theorem C14_cursor_beyond_completion_witness :
    (beyond_state.pmod_enc_btn_pressed = 1 ∧ 5 < beyond_state.position) ∧
    Process_Main_Menu_Selection beyond_state
      = some { beyond_state with pmod_enc_btn_pressed := 0 } ∧
    completes_attempt beyond_state = false :=
  ⟨⟨rfl, by decide⟩, C14_cursor_beyond_completion beyond_state rfl (by decide)⟩

/-- C15: on return from the handler the edge flag (a flag holding 0 or 1) is
0; a call that finds the flag at 0 returns the state it was given, trace
included.  The call returns unless an edge is latched on menu item 0 with the
cursor at 0. -/
theorem C15_edge_flag_consumed (s : Globals) :
    (∀ s1, Process_Main_Menu_Selection s = some s1 → s.pmod_enc_btn_pressed ≤ 1 →
      s1.pmod_enc_btn_pressed = 0) ∧
    (s.pmod_enc_btn_pressed = 0 → Process_Main_Menu_Selection s = some s) ∧
    (Process_Main_Menu_Selection s = none ↔
      s.pmod_enc_btn_pressed = 1 ∧ s.main_menu_counter = 0 ∧ s.position = 0) := by
  refine ⟨?_, ?_, process_none_iff s⟩
  · intro s1 h hle
    obtain ⟨_, _, _, _, _, f6, f7, _⟩ := process_frame s s1 h
    by_cases hb : s.pmod_enc_btn_pressed = 1
    · exact f6 hb
    · rw [f7 hb]
      omega
  · intro h0
    exact process_idle s (by rw [h0]; decide)

/-- Witness for C15: the flag is cleared by the call that commits a digit, and
a call without a latched edge returns the state unchanged. -/
theorem C15_edge_flag_consumed_witness :
    (∃ s1, Process_Main_Menu_Selection fourth_digit_state = some s1 ∧
      s1.pmod_enc_btn_pressed = 0) ∧
    Process_Main_Menu_Selection entry_state = some entry_state := by
  obtain ⟨s1, h1⟩ := process_returns fourth_digit_state (by decide)
  exact ⟨⟨s1, h1, (C15_edge_flag_consumed fourth_digit_state).1 s1 h1 (by decide)⟩,
    (C15_edge_flag_consumed entry_state).2.1 rfl⟩

/-! ## Sequences of ticks -/

theorem ticks_frame (drv : Driver) (ts : List Nat) (s : Globals) :
    (ticks drv ts s).position = s.position ∧
    (ticks drv ts s).entered_code = s.entered_code ∧
    (ticks drv ts s).trace = s.trace := by
  induction ts generalizing s with
  | nil => exact ⟨rfl, rfl, rfl⟩
  | cons hw ts ih => exact ih (PMOD_ENC_Task drv hw s)

theorem ticks_menu_counter (drv : Driver) (ts : List Nat) (s : Globals)
    (hm : s.main_menu_counter = 0) : (ticks drv ts s).main_menu_counter = 0 := by
  induction ts generalizing s with
  | nil => exact hm
  | cons hw ts ih => exact ih _ (task_menu_counter drv hw s hm)

theorem ticks_flag_sticky (drv : Driver) (ts : List Nat) (s : Globals)
    (hb : s.pmod_enc_btn_pressed = 1) : (ticks drv ts s).pmod_enc_btn_pressed = 1 := by
  induction ts generalizing s with
  | nil => exact hb
  | cons hw ts ih =>
    apply ih
    rw [task_flag, hb]
    split_ifs <;> rfl

theorem ticks_flag_of_edge (drv : Driver) (ts : List Nat) (s : Globals)
    (he : 1 ≤ rising_edges drv ts s.last_state) :
    (ticks drv ts s).pmod_enc_btn_pressed = 1 := by
  induction ts generalizing s with
  | nil => simp [rising_edges] at he
  | cons hw ts ih =>
    simp only [ticks]
    by_cases hx : (drv.PMOD_ENC_Button_Read (hw % 256) &&
        !drv.PMOD_ENC_Button_Read s.last_state) = true
    · apply ticks_flag_sticky
      rw [task_flag, if_pos hx]
    · apply ih
      rw [task_last_state]
      simp only [rising_edges, if_neg hx, Nat.zero_add] at he
      exact he

theorem ticks_flag_no_edge (drv : Driver) (ts : List Nat) (s : Globals)
    (he : rising_edges drv ts s.last_state = 0) :
    (ticks drv ts s).pmod_enc_btn_pressed = s.pmod_enc_btn_pressed := by
  induction ts generalizing s with
  | nil => rfl
  | cons hw ts ih =>
    simp only [ticks]
    simp only [rising_edges] at he
    have hx : ¬ (drv.PMOD_ENC_Button_Read (hw % 256) &&
        !drv.PMOD_ENC_Button_Read s.last_state) = true := by
      intro hx
      rw [if_pos hx] at he
      omega
    rw [if_neg hx, Nat.zero_add] at he
    rw [ih (PMOD_ENC_Task drv hw s) (by rw [task_last_state]; exact he), task_flag, if_neg hx]

/-- With an edge latched on menu item 0, the handler is the commit block
followed, when the cursor has reached 5, by the evaluation. -/
theorem process_via_commit (s c : Globals) (hb : s.pmod_enc_btn_pressed = 1)
    (hm : s.main_menu_counter = 0)
    (hc : commit_digit { s with pmod_enc_btn_pressed := 0 } = some c) :
    Process_Main_Menu_Selection s = some (if c.position = 5 then evaluate_entry c else c) := by
  simp only [Process_Main_Menu_Selection, hb, if_true]
  rw [if_pos hm, hc]
  by_cases h5 : c.position = 5
  · simp only [h5, if_true]
  · simp only [h5, if_false]

/-- C16: after a sequence of ticks with two or more rising edges and no call
of the handler in between, the next call of the handler runs the commit block
once (one slot written, the cursor moved from its slot to the next) and the
call after that, reached through ticks without a rising edge, returns the
state unchanged. -/
theorem C16_edges_collapse_to_one_commit (drv : Driver) (ts ts2 : List Nat) (s : Globals)
    (hm : s.main_menu_counter = 0) (h1 : 1 ≤ s.position) (h4 : s.position ≤ 4)
    (he : 2 ≤ rising_edges drv ts s.last_state) :
    ∃ c s2,
      commit_digit { ticks drv ts s with pmod_enc_btn_pressed := 0 } = some c ∧
      c.position = s.position + 1 ∧
      (∀ i : Fin 4, c.entered_code i =
        if i.val = s.position - 1 then to_uint8 (ticks drv ts s).password_counter
        else s.entered_code i) ∧
      Process_Main_Menu_Selection (ticks drv ts s) = some s2 ∧
      s2 = (if c.position = 5 then evaluate_entry c else c) ∧
      (s.position ≤ 3 → s2.position = s.position + 1) ∧
      (rising_edges drv ts2 s2.last_state = 0 →
        Process_Main_Menu_Selection (ticks drv ts2 s2) = some (ticks drv ts2 s2)) := by
  obtain ⟨fp, fc, _⟩ := ticks_frame drv ts s
  have fm := ticks_menu_counter drv ts s hm
  have fb := ticks_flag_of_edge drv ts s (by omega)
  have p1 : 1 ≤ (ticks drv ts s).position := by omega
  have p4 : (ticks drv ts s).position ≤ 4 := by omega
  have hc := commit_digit_in_range { ticks drv ts s with pmod_enc_btn_pressed := 0 } p1 p4
  have hp := process_via_commit (ticks drv ts s) _ fb fm hc
  refine ⟨_, _, hc, by show (ticks drv ts s).position + 1 = s.position + 1; omega, ?_, hp,
    rfl, ?_, ?_⟩
  · intro i
    show Function.update (ticks drv ts s).entered_code _ _ i = _
    by_cases hi : i.val = s.position - 1
    · have hj : i = ⟨(ticks drv ts s).position - 1, by omega⟩ :=
        Fin.ext (by show i.val = (ticks drv ts s).position - 1; omega)
      rw [if_pos hi, hj, Function.update_same]
    · have hj : i ≠ ⟨(ticks drv ts s).position - 1, by omega⟩ := by
        intro h
        have hv : i.val = (ticks drv ts s).position - 1 := congrArg Fin.val h
        omega
      rw [if_neg hi, Function.update_noteq hj, fc]
  · intro h3
    have h5 : ¬ (ticks drv ts s).position + 1 = 5 := by omega
    simp only [h5, if_false]
    omega
  · intro he2
    apply process_idle
    rw [ticks_flag_no_edge drv ts2 _ he2, (process_frame _ _ hp).2.2.2.2.2.1 fb]
    decide

/-- Witness for C16: a double click on the first slot, then two more samples
with the button held. -/
theorem C16_edges_collapse_to_one_commit_witness :
    (entry_state.main_menu_counter = 0 ∧
      2 ≤ rising_edges demo_driver double_click entry_state.last_state) ∧
    ∃ c s2,
      commit_digit { ticks demo_driver double_click entry_state with
        pmod_enc_btn_pressed := 0 } = some c ∧
      c.position = entry_state.position + 1 ∧
      (∀ i : Fin 4, c.entered_code i =
        if i.val = entry_state.position - 1
        then to_uint8 (ticks demo_driver double_click entry_state).password_counter
        else entry_state.entered_code i) ∧
      Process_Main_Menu_Selection (ticks demo_driver double_click entry_state) = some s2 ∧
      s2 = (if c.position = 5 then evaluate_entry c else c) ∧
      (entry_state.position ≤ 3 → s2.position = entry_state.position + 1) ∧
      (rising_edges demo_driver [1, 1] s2.last_state = 0 →
        Process_Main_Menu_Selection (ticks demo_driver [1, 1] s2)
          = some (ticks demo_driver [1, 1] s2)) :=
  ⟨⟨rfl, by decide⟩,
    C16_edges_collapse_to_one_commit demo_driver double_click [1, 1] entry_state rfl
      (by decide) (by decide) (by decide)⟩


/-! ## Independence from the old buffer -/

/-- The state after four consumed edges from the first slot; the old contents
of the buffer do not occur in it. -/
theorem presses_four_eq (d1 d2 d3 d4 : Int) (s : Globals) (hm : s.main_menu_counter = 0)
    (hp : s.position = 1) :
    presses [d1, d2, d3, d4] s = some (evaluate_entry
      { s with
        pmod_enc_btn_pressed := 0
        password_counter := d4
        entered_code := ![to_uint8 d1, to_uint8 d2, to_uint8 d3, to_uint8 d4]
        trace := s.trace ++
          [ Out.EduBase_LCD_Set_Cursor 1 1,
            Out.EduBase_LCD_Send_Data (char0 + d1),
            Out.EduBase_LCD_Set_Cursor 2 1,
            Out.EduBase_LCD_Send_Data (char0 + d2),
            Out.EduBase_LCD_Set_Cursor 3 1,
            Out.EduBase_LCD_Send_Data (char0 + d3),
            Out.EduBase_LCD_Set_Cursor 4 1,
            Out.EduBase_LCD_Send_Data (char0 + d4) ]
        position := 5 }) := by
  cases s with
  | mk st ls bp pm mm pc pos code tr =>
    simp only at hm hp
    subst hm hp
    simp only [presses]
    rw [press_commit _ _ rfl (Nat.le_refl 1) (by simp)]
    simp only []
    rw [press_commit _ _ rfl (by simp) (by simp)]
    simp only []
    rw [press_commit _ _ rfl (by simp) (by simp)]
    simp only []
    rw [press_complete _ _ rfl (by simp)]
    simp only [← four_updates code]
    simp

/-- C17: two attempts that start on the first slot with different old
contents of the entry buffer and commit the same four digits end in the same
state: the same driver calls (indicator colour and display text included),
the same cursor and the same digit counter. -/
theorem C17_outcome_independent_of_old_buffer (s : Globals) (code1 code2 : Fin 4 → Nat)
    (d1 d2 d3 d4 : Int) (hpos : s.position = 1) (hmenu : s.main_menu_counter = 0) :
    ∃ r1 r2,
      presses [d1, d2, d3, d4] { s with entered_code := code1 } = some r1 ∧
      presses [d1, d2, d3, d4] { s with entered_code := code2 } = some r2 ∧
      r1.trace = r2.trace ∧ r1.position = r2.position ∧
      r1.password_counter = r2.password_counter ∧ r1 = r2 :=
  ⟨_, _, presses_four_eq d1 d2 d3 d4 { s with entered_code := code1 } hmenu hpos,
    presses_four_eq d1 d2 d3 d4 { s with entered_code := code2 } hmenu hpos,
    rfl, rfl, rfl, rfl⟩

/-- Witness for C17: the reference code entered over an empty buffer and over
the digits of an earlier attempt. -/
theorem C17_outcome_independent_of_old_buffer_witness :
    (entry_state.position = 1 ∧ entry_state.main_menu_counter = 0) ∧
    ∃ r1 r2,
      presses [2, 3, 4, 5] { entry_state with entered_code := ![0, 0, 0, 0] } = some r1 ∧
      presses [2, 3, 4, 5] { entry_state with entered_code := ![9, 9, 9, 9] } = some r2 ∧
      r1.trace = r2.trace ∧ r1.position = r2.position ∧
      r1.password_counter = r2.password_counter ∧ r1 = r2 :=
  ⟨⟨rfl, rfl⟩,
    C17_outcome_independent_of_old_buffer entry_state ![0, 0, 0, 0] ![9, 9, 9, 9] 2 3 4 5
      rfl rfl⟩

/-! ## A latched press reaches the handler -/

end SmartLock
